import Mathlib

/-!
# AtomNX `bdk/utils/util.c`: a shallow embedding and its properties

Machine integers are natural numbers reduced modulo `2^w` wherever the C
arithmetic can wrap.  Loops whose termination is not evident run on fuel and
answer `none` when the fuel is used up.
-/

namespace AtomNX

/-! ## `sqrt64` -/

/-- The loop of `sqrt64`, one iteration per unit of fuel, on the loop state
`base`, `limit`, `square_root`.  Sums, products and `tmp_sqrt - 1` are taken
modulo `2^64`, as `u64` arithmetic does.  `none`: the fuel ran out before the
loop was left. -/
def sqrt64_loop (num : Nat) : Nat → Nat → Nat → Nat → Option Nat
  | 0, _, _, _ => none
  | fuel + 1, base, limit, square_root =>
    if base ≤ limit then
      let tmp_sqrt := ((base + limit) % 2 ^ 64) / 2
      if (tmp_sqrt * tmp_sqrt) % 2 ^ 64 = num then
        some tmp_sqrt
      else if (tmp_sqrt * tmp_sqrt) % 2 ^ 64 < num then
        sqrt64_loop num fuel ((tmp_sqrt + 1) % 2 ^ 64) limit base
      else
        sqrt64_loop num fuel base ((tmp_sqrt + 2 ^ 64 - 1) % 2 ^ 64) square_root
    else
      some square_root

/-- `sqrt64(num)` run for at most `fuel` iterations of its loop. -/
def sqrt64_fuel (fuel num : Nat) : Option Nat :=
  sqrt64_loop num fuel 0 num 0

/-! ## `crc32_calc` -/

/-- The 32-bit complement `~x` of a `u32`. -/
def not32 (x : Nat) : Nat := (x % 2 ^ 32) ^^^ 0xFFFFFFFF

/-- Body of the inner `j` loop of the table construction. -/
def crc32_rem_step (rem : Nat) : Nat :=
  if rem &&& 1 ≠ 0 then (rem >>> 1) ^^^ 0xedb88320 else rem >>> 1

/-- The inner loop `for (j = 0; j < 8; j++)`, `n` iterations of it. -/
def crc32_rem_loop : Nat → Nat → Nat
  | 0, rem => rem
  | n + 1, rem => crc32_rem_loop n (crc32_rem_step rem)

/-- The outer loop `for (i = 0; i < 256; i++) table[i] = rem`: the table that
the first call allocates and fills. -/
def crc32_make_table : List Nat :=
  (List.range 256).map (fun i => crc32_rem_loop 8 i)

/-- Body of the byte loop: `crc = (crc >> 8) ^ table[(crc & 0xff) ^ oct]`. -/
def crc32_byte (table : List Nat) (crc oct : Nat) : Nat :=
  (crc >>> 8) ^^^ table.getD ((crc &&& 0xff) ^^^ oct) 0

/-- `crc32_calc(crc, buf, len)` with the function-local `static u32 *table`
made explicit: `none` is the `NULL` pointer of a first call.  The result is the
returned checksum and the table pointer after the call. -/
def crc32_calc (table : Option (List Nat)) (crc : Nat) (buf : List Nat) :
    Nat × Option (List Nat) :=
  let t := match table with
    | none => crc32_make_table
    | some t => t
  (not32 (buf.foldl (crc32_byte t) (not32 crc)), some t)

/-- Reference step, one message bit: the reflected CRC-32 shift register with
polynomial `0xEDB88320`. -/
def ref_crc32_bit (reg : Nat) : Nat :=
  if reg % 2 = 1 then (reg / 2) ^^^ 0xEDB88320 else reg / 2

/-- Reference step, one message byte: xor the byte into the register, then
eight bit steps. -/
def ref_crc32_octet (reg oct : Nat) : Nat :=
  ref_crc32_bit^[8] (reg ^^^ oct)

/-- Reference bit-by-bit CRC-32: start from the register `~seed`, feed the
bytes in order, complement at the end. -/
def ref_crc32 (seed : Nat) (data : List Nat) : Nat :=
  not32 (data.foldl ref_crc32_octet (not32 seed))


/-! ## `panic` and `power_set_state` -/

/-- Constants that `util.c` takes from BDK headers (`utils/util.h`,
`soc/pmc.h`, `soc/timer.h`, `soc/i2c.h`, `power/max77620.h`).  The headers are
not among the sources, so their values are parameters of the model. -/
structure Consts where
  REBOOT_RCM : Int
  REBOOT_BYPASS_FUSES : Int
  POWER_OFF : Int
  POWER_OFF_RESET : Int
  POWER_OFF_REBOOT : Int
  APBDEV_PMC_CNTRL : Nat
  APBDEV_PMC_SCRATCH0 : Nat
  APBDEV_PMC_SCRATCH200 : Nat
  PMC_CNTRL_MAIN_RST : Nat
  PMC_SCRATCH0_MODE_RCM : Nat
  TIMER_PMCRESET_EN : Nat
  I2C_5 : Nat
  MAX77620_I2C_ADDR : Nat
  MAX77620_REG_ONOFFCNFG1 : Nat
  MAX77620_REG_ONOFFCNFG2 : Nat
  MAX77620_ONOFFCNFG1_SFT_RST : Nat
  MAX77620_ONOFFCNFG1_PWR_OFF : Nat
  MAX77620_ONOFFCNFG2_SFT_RST_WK : Nat
  MAX77620_ONOFFCNFG2_WK_ALARM1 : Nat
  MAX77620_ONOFFCNFG2_WK_ALARM2 : Nat

/-- The `case` labels of the `switch` in `power_set_state` are pairwise
different, as C demands of the labels of one `switch`. -/
def Consts.labels_distinct (c : Consts) : Prop :=
  [c.REBOOT_RCM, c.REBOOT_BYPASS_FUSES, c.POWER_OFF, c.POWER_OFF_RESET,
    c.POWER_OFF_REBOOT].Nodup

instance (c : Consts) : Decidable c.labels_distinct := by
  unfold Consts.labels_distinct
  infer_instance

/-- Answers of the hardware to the register reads that `power_set_state`
performs: a read of a PMC register, and `i2c_recv_byte(bus, addr, reg)`. -/
structure Hw where
  pmc : Nat → Nat
  i2c_recv_byte : Nat → Nat → Nat → Nat

/-- The externally visible effects: calls into the collaborators and accesses
to memory-mapped PMC registers.  Reads carry the value that was read. -/
inductive Effect where
  | sd_end
  | hw_reinit_workaround (coreboot : Bool) (bl_magic : Nat)
  | max77620_rtc_stop_alarm
  | pmc_read (reg val : Nat)
  | pmc_write (reg val : Nat)
  | i2c_recv_byte (bus addr reg val : Nat)
  | i2c_send_byte (bus addr reg val : Nat)
  | watchdog_start (val mode : Nat)
  | bpmp_halt
  deriving DecidableEq

/-- How a piece of code ends: control leaves it at its end, or it stays in an
endless loop whose every round produces the effects `body`. -/
inductive Ending where
  | returns
  | forever (body : List Effect)
  deriving DecidableEq

/-- The effects of a piece of code up to its ending, in program order. -/
structure Run where
  trace : List Effect
  ending : Ending
  deriving DecidableEq

/-- A call of a collaborator or a register access, which returns. -/
def Run.call (e : Effect) : Run := ⟨[e], Ending.returns⟩

/-- The empty statement. -/
def Run.skip : Run := ⟨[], Ending.returns⟩

/-- Sequencing `r; k`: the code `k` runs only if `r` returns. -/
def Run.andThen (r k : Run) : Run :=
  match r.ending with
  | Ending.returns => ⟨r.trace ++ k.trace, k.ending⟩
  | Ending.forever _ => r

/-- The loop `while (true) body`. -/
def Run.while_true (body : Run) : Run :=
  match body.ending with
  | Ending.returns => ⟨[], Ending.forever body.trace⟩
  | Ending.forever _ => body

/-- `panic(val)`. -/
def panic (c : Consts) (val : Nat) : Run :=
  (Run.call (Effect.pmc_write c.APBDEV_PMC_SCRATCH200 val)).andThen <|
  (Run.call (Effect.watchdog_start 0 c.TIMER_PMCRESET_EN)).andThen <|
  Run.while_true Run.skip

/-- The `if`/`else` on the `u8 reg` in the `default:` group: for
`POWER_OFF_RESET` the wake bits are masked out, otherwise the soft-reset wake
bit is or-ed in. -/
def power_set_state_wake (c : Consts) (state : Int) (reg : Nat) : Nat :=
  if state = c.POWER_OFF_RESET then
    (reg &&& not32 (c.MAX77620_ONOFFCNFG2_SFT_RST_WK ||| c.MAX77620_ONOFFCNFG2_WK_ALARM1
      ||| c.MAX77620_ONOFFCNFG2_WK_ALARM2)) % 256
  else
    (reg ||| c.MAX77620_ONOFFCNFG2_SFT_RST_WK) % 256

/-- The `default:` group of the `switch`, shared by `POWER_OFF_RESET`,
`POWER_OFF_REBOOT` and every unlisted value.  `reg` is a `u8`. -/
def power_set_state_default (c : Consts) (hw : Hw) (state : Int) : Run :=
  let reg := hw.i2c_recv_byte c.I2C_5 c.MAX77620_I2C_ADDR c.MAX77620_REG_ONOFFCNFG2 % 256
  (Run.call (Effect.i2c_recv_byte c.I2C_5 c.MAX77620_I2C_ADDR c.MAX77620_REG_ONOFFCNFG2 reg)).andThen <|
  (Run.call (Effect.i2c_send_byte c.I2C_5 c.MAX77620_I2C_ADDR c.MAX77620_REG_ONOFFCNFG2
    (power_set_state_wake c state reg))).andThen <|
  Run.call (Effect.i2c_send_byte c.I2C_5 c.MAX77620_I2C_ADDR c.MAX77620_REG_ONOFFCNFG1
    c.MAX77620_ONOFFCNFG1_SFT_RST)

/-- The statement `switch (state) { ... }` of `power_set_state`. -/
def power_set_state_switch (c : Consts) (hw : Hw) (state : Int) : Run :=
  if state = c.REBOOT_RCM then
    let cntrl := hw.pmc c.APBDEV_PMC_CNTRL % 2 ^ 32
    (Run.call (Effect.pmc_write c.APBDEV_PMC_SCRATCH0 c.PMC_SCRATCH0_MODE_RCM)).andThen <|
    (Run.call (Effect.pmc_read c.APBDEV_PMC_CNTRL cntrl)).andThen <|
    Run.call (Effect.pmc_write c.APBDEV_PMC_CNTRL ((cntrl ||| c.PMC_CNTRL_MAIN_RST) % 2 ^ 32))
  else if state = c.REBOOT_BYPASS_FUSES then
    (panic c 0x21).andThen Run.skip
  else if state = c.POWER_OFF then
    Run.call (Effect.i2c_send_byte c.I2C_5 c.MAX77620_I2C_ADDR c.MAX77620_REG_ONOFFCNFG1
      c.MAX77620_ONOFFCNFG1_PWR_OFF)
  else
    power_set_state_default c hw state

/-- `power_set_state(state)`. -/
def power_set_state (c : Consts) (hw : Hw) (state : Int) : Run :=
  (Run.call Effect.sd_end).andThen <|
  (Run.call (Effect.hw_reinit_workaround false 0)).andThen <|
  (Run.call Effect.max77620_rtc_stop_alarm).andThen <|
  (power_set_state_switch c hw state).andThen <|
  Run.while_true (Run.call Effect.bpmp_halt)

/-- The `i2c_send_byte` calls of a trace, as `(bus, addr, reg, val)`. -/
def pmic_writes : List Effect → List (Nat × Nat × Nat × Nat)
  | [] => []
  | Effect.i2c_send_byte bus addr reg val :: t => (bus, addr, reg, val) :: pmic_writes t
  | _ :: t => pmic_writes t

/-- An effect is a transfer on an I2C bus. -/
def Effect.is_i2c : Effect → Bool
  | Effect.i2c_recv_byte _ _ _ _ => true
  | Effect.i2c_send_byte _ _ _ _ => true
  | _ => false

/-- The PMC register file after the writes of a trace, from the contents
`regs` before it. -/
def pmc_after (regs : Nat → Nat) : List Effect → Nat → Nat
  | [] => regs
  | Effect.pmc_write reg val :: t => pmc_after (fun r => if r = reg then val else regs r) t
  | _ :: t => pmc_after regs t

/-- A sample assignment of the constants, for evaluating the model. -/
def sample_consts : Consts where
  REBOOT_RCM := 0
  REBOOT_BYPASS_FUSES := 1
  POWER_OFF := 2
  POWER_OFF_RESET := 3
  POWER_OFF_REBOOT := 4
  APBDEV_PMC_CNTRL := 0x0
  APBDEV_PMC_SCRATCH0 := 0x50
  APBDEV_PMC_SCRATCH200 := 0x840
  PMC_CNTRL_MAIN_RST := 0x10
  PMC_SCRATCH0_MODE_RCM := 0x2
  TIMER_PMCRESET_EN := 0x10
  I2C_5 := 4
  MAX77620_I2C_ADDR := 0x3C
  MAX77620_REG_ONOFFCNFG1 := 0x41
  MAX77620_REG_ONOFFCNFG2 := 0x42
  MAX77620_ONOFFCNFG1_SFT_RST := 0x80
  MAX77620_ONOFFCNFG1_PWR_OFF := 0x02
  MAX77620_ONOFFCNFG2_SFT_RST_WK := 0x80
  MAX77620_ONOFFCNFG2_WK_ALARM1 := 0x04
  MAX77620_ONOFFCNFG2_WK_ALARM2 := 0x02

/-- A sample hardware: `PMC_CNTRL` reads `0xA00`, the PMIC registers `0x46`. -/
def sample_hw : Hw where
  pmc := fun _ => 0xA00
  i2c_recv_byte := fun _ _ _ => 0x46

/-- `power_set_state_ex(param)`: `param` is an address, `mem` the memory it
points into, read as a `power_state_t`. -/
def power_set_state_ex (c : Consts) (hw : Hw) (mem : Nat → Int) (param : Nat) : Run :=
  let state := mem param
  power_set_state c hw state

/-- The `n`-th effect of a run, counted from `0` through the trace and on
through the rounds of an endless loop; `none` when nothing more happens. -/
def Run.effect_at (r : Run) (n : Nat) : Option Effect :=
  if n < r.trace.length then r.trace[n]?
  else
    match r.ending with
    | Ending.returns => none
    | Ending.forever body => body[(n - r.trace.length) % body.length]?

/-! ## `bit_count`, `bit_count_mask`, `exec_cfg` -/

/-- The loop of `bit_count`: `n` iterations from index `i` with the `u8`
counter at `cnt`. -/
def bit_count_loop (val : Nat) : Nat → Nat → Nat → Nat
  | 0, _, cnt => cnt
  | n + 1, i, cnt =>
    bit_count_loop val n (i + 1) (if (val >>> i) &&& 1 ≠ 0 then (cnt + 1) % 256 else cnt)

/-- `bit_count(val)`. -/
def bit_count (val : Nat) : Nat := bit_count_loop val 32 0 0

/-- Reference population count: how many of the 32 bit positions of `v` hold
a one. -/
def ref_popcount32 (v : Nat) : Nat :=
  ((Finset.range 32).filter (fun i => v.testBit i)).card

/-- The loop of `bit_count_mask`: `n` iterations from index `i`; the shift
`1 << i` is taken modulo `2^32`. -/
def bit_count_mask_loop : Nat → Nat → Nat → Nat
  | 0, _, val => val
  | n + 1, i, val => bit_count_mask_loop n (i + 1) (val ||| (1 <<< i) % 2 ^ 32)

/-- `bit_count_mask(bits)`. -/
def bit_count_mask (bits : Nat) : Nat := bit_count_mask_loop bits 0 0

/-- One configuration write, `cfg_op_t`: the offset `off` into the register
block and the value `val`. -/
structure cfg_op_t where
  off : Nat
  val : Nat
  deriving DecidableEq

/-- `exec_cfg(base, ops, num_ops)`: the register block after the loop has
stored `ops[i].val` at `base[ops[i].off]` for `i = 0, 1, ...`. -/
def exec_cfg (base : List Nat) : List cfg_op_t → List Nat
  | [] => base
  | op :: ops => exec_cfg (base.set op.off op.val) ops

/-- The loop of `sqrt64` with a record of the midpoints `tmp_sqrt` it
examines, in order: the result is the returned value and that record. -/
def sqrt64_loop_mids (num : Nat) : Nat → Nat → Nat → Nat → List Nat → Option (Nat × List Nat)
  | 0, _, _, _, _ => none
  | fuel + 1, base, limit, square_root, mids =>
    if base ≤ limit then
      let tmp_sqrt := ((base + limit) % 2 ^ 64) / 2
      if (tmp_sqrt * tmp_sqrt) % 2 ^ 64 = num then
        some (tmp_sqrt, mids ++ [tmp_sqrt])
      else if (tmp_sqrt * tmp_sqrt) % 2 ^ 64 < num then
        sqrt64_loop_mids num fuel ((tmp_sqrt + 1) % 2 ^ 64) limit base (mids ++ [tmp_sqrt])
      else
        sqrt64_loop_mids num fuel base ((tmp_sqrt + 2 ^ 64 - 1) % 2 ^ 64) square_root
          (mids ++ [tmp_sqrt])
    else
      some (square_root, mids)

/-- One pass through the test and the body of the loop of `sqrt64` from the
state `(base, limit, square_root)`: the next state, or `none` when the loop is
left, by its condition or by `break`. -/
def sqrt64_step (num : Nat) (st : Nat × Nat × Nat) : Option (Nat × Nat × Nat) :=
  if st.1 ≤ st.2.1 then
    let tmp_sqrt := ((st.1 + st.2.1) % 2 ^ 64) / 2
    if (tmp_sqrt * tmp_sqrt) % 2 ^ 64 = num then
      none
    else if (tmp_sqrt * tmp_sqrt) % 2 ^ 64 < num then
      some ((tmp_sqrt + 1) % 2 ^ 64, st.2.1, st.1)
    else
      some (st.1, (tmp_sqrt + 2 ^ 64 - 1) % 2 ^ 64, st.2.2)
  else
    none

/-- The state of the loop of `sqrt64(num)` after `n` iterations, `none` once
the loop has been left. -/
def sqrt64_state (num : Nat) : Nat → Option (Nat × Nat × Nat)
  | 0 => some (0, num, 0)
  | n + 1 => (sqrt64_state num n).bind (sqrt64_step num)

/-! ## `strcpy_ns` and `str_replace` -/

/-- `strcpy_ns(dst, src)`: the string in `dst` after the call, `none` for the
`NULL` return, which writes nothing.  A pointer is `none` when it is `NULL`;
`dst` is taken to have room for the copy. -/
def strcpy_ns (dst src : Option (List Char)) : Option (List Char) :=
  match dst, src with
  | some _, some src =>
    let len := src.length
    let strip := decide (len ≠ 0) && (src[0]? == some ' ')
    let len := if strip then len - 1 else len
    let src := if strip then src.drop 1 else src
    let dst := src
    if decide (len ≠ 0) && (dst[len - 1]? == some ' ') then some (dst.take (len - 1))
    else some dst
  | _, _ => none

/-- Reference for `strcpy_ns`: drop one leading space if there is one, then
drop one trailing space if what remains ends with one. -/
def ref_strip_one_space (s : List Char) : List Char :=
  let s1 := if s.head? = some ' ' then s.tail else s
  if s1.getLast? = some ' ' then s1.dropLast else s1

/-- The string `hay` begins with the string `needle`. -/
def starts_with : List Char → List Char → Bool
  | _, [] => true
  | [], _ :: _ => false
  | h :: t, n :: ns => h == n && starts_with t ns

/-- The C library `strstr(hay, needle)`: the offset of the first occurrence of
`needle` in `hay`, `none` for `NULL`. -/
def strstr : List Char → List Char → Option Nat
  | [], needle => if starts_with [] needle then some 0 else none
  | h :: t, needle =>
    if starts_with (h :: t) needle then some 0 else (strstr t needle).map (fun i => i + 1)

/-- What a call returning `char *` yields: `NULL`, a string, or `stuck` when
the model cannot go on (fuel used up, or arithmetic on a `NULL` pointer). -/
inductive Ret where
  | null
  | str (s : List Char)
  | stuck
  deriving DecidableEq

/-- The counting loop of `str_replace`,
`for (count = 0; (tmp = strstr(ins, rep)); ++count) ins = tmp + len_rep;`,
on the rest `ins` of `orig`; one iteration per unit of fuel. -/
def str_replace_count (rep : List Char) : Nat → List Char → Nat → Option Nat
  | 0, _, _ => none
  | fuel + 1, ins, count =>
    match strstr ins rep with
    | none => some count
    | some i => str_replace_count rep fuel (ins.drop (i + rep.length)) (count + 1)

/-- The copying loop `while (count--)` of `str_replace` and the final
`strcpy(tmp, orig)`: `orig` is the rest of the input, `out` what has been
written to the result so far. -/
def str_replace_build (rep with_s : List Char) : Nat → List Char → List Char → Ret
  | 0, orig, out => Ret.str (out ++ orig)
  | count + 1, orig, out =>
    match strstr orig rep with
    | none => Ret.stuck
    | some len_front =>
      str_replace_build rep with_s count (orig.drop (len_front + rep.length))
        (out ++ orig.take len_front ++ with_s)

/-- `str_replace(orig, rep, with)`.  `malloc` belongs to the heap of the BDK,
which is not among the sources: `heap n` tells whether `malloc(n)` succeeds.
Lengths are taken as exact integers. -/
def str_replace (heap : Int → Bool) (orig rep with_s : Option (List Char)) : Ret :=
  match orig, rep with
  | some orig, some rep =>
    let len_rep : Int := rep.length
    if len_rep = 0 then Ret.null
    else
      let with_s := with_s.getD []
      let len_with : Int := with_s.length
      match str_replace_count rep (orig.length + 1) orig 0 with
      | none => Ret.stuck
      | some count =>
        if heap (orig.length + (len_with - len_rep) * count + 1) then
          str_replace_build rep with_s count orig []
        else Ret.null
  | _, _ => Ret.null

/-- Reference for `str_replace`: scan `s` from left to right; where `rep`
occurs, put `with_s` and pass over the characters of that occurrence (`skip`
counts those still to pass), so that occurrences do not overlap. -/
def ref_replace_scan (rep with_s : List Char) : Nat → List Char → List Char
  | _, [] => []
  | skip + 1, _ :: t => ref_replace_scan rep with_s skip t
  | 0, c :: t =>
    if starts_with (c :: t) rep then with_s ++ ref_replace_scan rep with_s (rep.length - 1) t
    else c :: ref_replace_scan rep with_s 0 t

/-- Reference: the number of occurrences found by the same scan. -/
def ref_count_scan (rep : List Char) : Nat → List Char → Nat
  | _, [] => 0
  | skip + 1, _ :: t => ref_count_scan rep skip t
  | 0, c :: t =>
    if starts_with (c :: t) rep then 1 + ref_count_scan rep (rep.length - 1) t
    else ref_count_scan rep 0 t

/-- `payload_logo_path(payload, result)` of `gui.c`: the string copied to
`result`, `none` when `str_replace` has returned `NULL` (a `strcpy` from
`NULL`) or the model is stuck. -/
def payload_logo_path (heap : Int → Bool) (payload : List Char) : Option (List Char) :=
  let tmp := "AtomNX/logos".toList ++ "/".toList ++ payload
  match str_replace heap (some tmp) (some ".bin".toList) (some ".bmp".toList) with
  | Ret.str s => some s
  | _ => none

/-! ## The RTC dialog of `gui.c` -/

/-- Constants of `rtc/max77620-rtc.h` used by `ctrl_rtctime`; the header is not
among the sources. -/
structure RtcConsts where
  MAX77620_RTC_24H : Nat
  MAX77620_RTC_HOUR_PM_MASK : Nat

/-- The bytes that `i2c_recv_byte` returns for the RTC registers. -/
structure RtcRegs where
  CONTROL_REG : Nat
  SEC_REG : Nat
  MIN_REG : Nat
  HOUR_REG : Nat
  WEEKDAY_REG : Nat
  DATE_REG : Nat
  YEAR_REG : Nat
  MONTH_REG : Nat
  deriving DecidableEq

/-- The fields of `rtc_time_t`. -/
structure rtc_time_t where
  weekday : Nat
  sec : Nat
  min : Nat
  hour : Nat
  day : Nat
  month : Nat
  year : Nat
  deriving DecidableEq

/-- The weekday loop of `ctrl_rtctime`: `n` iterations left. -/
def rtc_weekday_loop : Nat → Nat → Nat → Nat
  | 0, _, weekday => weekday
  | n + 1, val, weekday =>
    if val &&& 1 ≠ 0 then weekday + 1 else rtc_weekday_loop n (val >>> 1) (weekday + 1)

/-- The statement `if (hour == 23) hour = 0; else hour += 1;`. -/
def hour_inc (hour : Nat) : Nat := if hour = 23 then 0 else (hour + 1) % 256

/-- The statement `if (hour == 00) hour = 23; else hour -= 1;` on a `u8`. -/
def hour_dec (hour : Nat) : Nat := if hour = 0 then 23 else (hour + 255) % 256

/-- `ctrl_rtctime`: the time that is formatted into the text fields, from the
RTC registers read. -/
def ctrl_rtctime (k : RtcConsts) (r : RtcRegs) : rtc_time_t :=
  let val := r.CONTROL_REG % 256
  let sec := r.SEC_REG % 256 &&& 0x7F
  let min := r.MIN_REG % 256 &&& 0x7F
  let hour := r.HOUR_REG % 256 &&& 0x1F
  let hour :=
    if val &&& k.MAX77620_RTC_24H = 0 ∧ hour &&& k.MAX77620_RTC_HOUR_PM_MASK ≠ 0 then
      ((hour &&& 0xF) + 12) % 256
    else hour
  let weekday := rtc_weekday_loop 8 (r.WEEKDAY_REG % 256) 0
  let day := r.DATE_REG % 256 &&& 0x1f
  let year := (r.YEAR_REG % 256 &&& 0x7F) + 2000
  let month := r.MONTH_REG % 256 &&& 0xF
  let hour := hour_inc hour
  let hour := if month > 3 ∧ month < 10 then hour_inc hour else hour
  let hour :=
    if month = 3 ∧ hour + 24 * day ≥ 1 + 0 + 24 * (31 - (5 * year / 4 + 4) % 7) then
      hour_inc hour
    else hour
  let hour :=
    if month = 10 ∧ hour + 24 * day < 1 + 0 + 24 * (31 - (5 * year / 4 + 1) % 7) then
      hour_inc hour
    else hour
  ⟨weekday, sec, min, hour, day, month, year⟩

/-- The bytes that `ctrl_rtctimesave` sends to the RTC time registers. -/
structure RtcWrite where
  HOUR_REG : Nat
  MIN_REG : Nat
  DATE_REG : Nat
  MONTH_REG : Nat
  YEAR_REG : Nat
  deriving DecidableEq

/-- `ctrl_rtctimesave`: the bytes sent to the RTC registers, from the numbers
that `atoi` reads in the text fields.  The fields of `rtc_time_t` are `u8`, the
year a `u16`; `i2c_send_byte` takes a `u8`. -/
def ctrl_rtctimesave (hours min day month year : Int) : RtcWrite :=
  let hour := (hours % 256).toNat
  let min := (min % 256).toNat
  let day := (day % 256).toNat
  let month := (month % 256).toNat
  let year := (year % 65536).toNat
  let hour := hour_dec hour
  let hour := if month > 3 ∧ month < 10 then hour_dec hour else hour
  let hour :=
    if month = 3 ∧ hour + 24 * day ≥ 1 + 0 + 24 * (31 - (5 * year / 4 + 4) % 7) then
      hour_dec hour
    else hour
  let hour :=
    if month = 10 ∧ hour + 24 * day < 1 + 0 + 24 * (31 - (5 * year / 4 + 1) % 7) then
      hour_dec hour
    else hour
  let year := (year + 65536 - 2000) % 65536
  ⟨hour, min, day, month, year % 256⟩

/-- Sample RTC constants, for evaluating the model. -/
def sample_rtc_consts : RtcConsts where
  MAX77620_RTC_24H := 0x2
  MAX77620_RTC_HOUR_PM_MASK := 0x40

/-! ## Lemmas on the CRC -/

theorem crc32_rem_step_eq (r : Nat) : crc32_rem_step r = ref_crc32_bit r := by
  unfold crc32_rem_step ref_crc32_bit
  rw [Nat.and_one_is_mod, Nat.shiftRight_eq_div_pow]
  have h : r % 2 = 0 ∨ r % 2 = 1 := by omega
  rcases h with h | h <;> simp [h]

theorem crc32_rem_loop_eq (n r : Nat) : crc32_rem_loop n r = ref_crc32_bit^[n] r := by
  induction n generalizing r with
  | zero => rfl
  | succ n ih => rw [crc32_rem_loop, ih, crc32_rem_step_eq, Function.iterate_succ_apply]

theorem xor_swap_right (x y p : Nat) : (x ^^^ y) ^^^ p = (x ^^^ p) ^^^ y := by
  apply Nat.eq_of_testBit_eq
  intro i
  simp only [Nat.testBit_xor]
  cases x.testBit i <;> cases y.testBit i <;> cases p.testBit i <;> rfl

theorem xor_cancel_both (x y p : Nat) : x ^^^ y = (x ^^^ p) ^^^ (y ^^^ p) := by
  apply Nat.eq_of_testBit_eq
  intro i
  simp only [Nat.testBit_xor]
  cases x.testBit i <;> cases y.testBit i <;> cases p.testBit i <;> rfl

theorem ref_crc32_bit_xor (a b : Nat) :
    ref_crc32_bit (a ^^^ b) = ref_crc32_bit a ^^^ ref_crc32_bit b := by
  have hs : (a ^^^ b) / 2 = (a / 2) ^^^ (b / 2) := by
    apply Nat.eq_of_testBit_eq
    intro i
    simp [← Nat.testBit_succ]
  have hm : (a ^^^ b) % 2 = (a + b) % 2 := Nat.xor_mod_two_eq
  unfold ref_crc32_bit
  rw [hs, hm]
  have ha : a % 2 = 0 ∨ a % 2 = 1 := by omega
  have hb : b % 2 = 0 ∨ b % 2 = 1 := by omega
  rcases ha with ha | ha <;> rcases hb with hb | hb
  · have : (a + b) % 2 = 0 := by omega
    simp [ha, hb, this]
  · have : (a + b) % 2 = 1 := by omega
    simp [ha, hb, this, Nat.xor_assoc]
  · have : (a + b) % 2 = 1 := by omega
    simp only [ha, hb, this, if_true]
    exact xor_swap_right _ _ _
  · have : (a + b) % 2 = 0 := by omega
    simp only [ha, hb, this, if_true]
    exact xor_cancel_both _ _ _

theorem ref_crc32_bit_iter_xor (n a b : Nat) :
    ref_crc32_bit^[n] (a ^^^ b) = ref_crc32_bit^[n] a ^^^ ref_crc32_bit^[n] b := by
  induction n generalizing a b with
  | zero => rfl
  | succ n ih => simp only [Function.iterate_succ_apply, ref_crc32_bit_xor, ih]

theorem ref_crc32_bit_iter_shifted (n h : Nat) : ref_crc32_bit^[n] (2 ^ n * h) = h := by
  induction n with
  | zero => simp
  | succ n ih =>
    rw [Function.iterate_succ_apply]
    have h1 : ref_crc32_bit (2 ^ (n + 1) * h) = 2 ^ n * h := by
      unfold ref_crc32_bit
      have e : 2 ^ (n + 1) * h = 2 * (2 ^ n * h) := by ring
      rw [e]
      have : (2 * (2 ^ n * h)) % 2 = 0 := by omega
      simp [this]
    rw [h1, ih]

theorem split_low_octet (x : Nat) : x = (2 ^ 8 * (x >>> 8)) ^^^ (x % 256) := by
  apply Nat.eq_of_testBit_eq
  intro i
  have e : (256 : Nat) = 2 ^ 8 := by norm_num
  rw [Nat.testBit_xor, e, Nat.testBit_mod_two_pow, Nat.testBit_mul_pow_two, Nat.testBit_shiftRight]
  by_cases h : i < 8
  · have : ¬ 8 ≤ i := by omega
    simp [h, this]
  · have h8 : 8 ≤ i := by omega
    have : 8 + (i - 8) = i := by omega
    simp [h, h8, this]

theorem ref_crc32_bit_iter_split (x : Nat) :
    ref_crc32_bit^[8] x = (x >>> 8) ^^^ ref_crc32_bit^[8] (x % 256) := by
  conv_lhs => rw [split_low_octet x]
  rw [ref_crc32_bit_iter_xor, ref_crc32_bit_iter_shifted]

theorem crc32_make_table_getD (i : Nat) (h : i < 256) :
    crc32_make_table.getD i 0 = ref_crc32_bit^[8] i := by
  unfold crc32_make_table
  rw [List.getD_eq_getElem?_getD, List.getElem?_map, List.getElem?_range h]
  simp [crc32_rem_loop_eq]

theorem xor_octet_shift (crc oct : Nat) (h : oct < 256) :
    (crc ^^^ oct) >>> 8 = crc >>> 8 := by
  apply Nat.eq_of_testBit_eq
  intro i
  have : oct.testBit (8 + i) = false := by
    apply Nat.testBit_lt_two_pow
    calc oct < 2 ^ 8 := h
      _ ≤ 2 ^ (8 + i) := Nat.pow_le_pow_right (by norm_num) (by omega)
  simp [this]

theorem xor_octet_low (crc oct : Nat) (h : oct < 256) :
    (crc ^^^ oct) % 256 = (crc &&& 0xff) ^^^ oct := by
  have e : (256 : Nat) = 2 ^ 8 := by norm_num
  have e2 : (0xff : Nat) = 2 ^ 8 - 1 := by norm_num
  rw [e2, Nat.and_pow_two_sub_one_eq_mod]
  apply Nat.eq_of_testBit_eq
  intro i
  rw [e, Nat.testBit_mod_two_pow, Nat.testBit_xor, Nat.testBit_xor, Nat.testBit_mod_two_pow]
  by_cases hi : i < 8
  · simp [hi]
  · have : oct.testBit i = false := by
      apply Nat.testBit_lt_two_pow
      calc oct < 2 ^ 8 := h
        _ ≤ 2 ^ i := Nat.pow_le_pow_right (by norm_num) (by omega)
    simp [hi, this]

theorem crc32_byte_eq (crc oct : Nat) (h : oct < 256) :
    crc32_byte crc32_make_table crc oct = ref_crc32_octet crc oct := by
  unfold crc32_byte ref_crc32_octet
  rw [ref_crc32_bit_iter_split, xor_octet_shift crc oct h, xor_octet_low crc oct h,
    crc32_make_table_getD]
  rw [← xor_octet_low crc oct h]
  exact Nat.mod_lt _ (by norm_num)

theorem crc32_fold_eq (buf : List Nat) (h : ∀ b ∈ buf, b < 256) (crc : Nat) :
    buf.foldl (crc32_byte crc32_make_table) crc = buf.foldl ref_crc32_octet crc := by
  induction buf generalizing crc with
  | nil => rfl
  | cons b bs ih =>
    simp only [List.foldl_cons]
    rw [crc32_byte_eq crc b (h b (List.mem_cons_self _ _))]
    exact ih (fun x hx => h x (List.mem_cons_of_mem _ hx)) _



/-! ## Lemmas on the effect traces -/

theorem and_not32_and_eq_zero (r k a b : Nat) :
    ((r &&& not32 (k ||| a ||| b)) % 256) &&& k = 0 := by
  apply Nat.eq_of_testBit_eq
  intro i
  have e : (256 : Nat) = 2 ^ 8 := by norm_num
  have e32 : (0xFFFFFFFF : Nat) = 2 ^ 32 - 1 := by norm_num
  unfold not32
  rw [e, e32]
  simp only [Nat.testBit_and, Nat.testBit_mod_two_pow, Nat.testBit_xor, Nat.testBit_or,
    Nat.testBit_two_pow_sub_one, Nat.zero_testBit]
  by_cases h8 : i < 8
  · have h32 : i < 32 := by omega
    cases r.testBit i <;> cases k.testBit i <;> cases a.testBit i <;> cases b.testBit i <;>
      simp [h8, h32]
  · simp [h8]

theorem or_mod_and_eq (r k : Nat) (hk : k < 256) : ((r ||| k) % 256) &&& k = k := by
  apply Nat.eq_of_testBit_eq
  intro i
  have e : (256 : Nat) = 2 ^ 8 := by norm_num
  rw [e]
  simp only [Nat.testBit_and, Nat.testBit_mod_two_pow, Nat.testBit_or]
  by_cases h8 : i < 8
  · cases r.testBit i <;> cases k.testBit i <;> simp [h8]
  · have : k.testBit i = false := by
      apply Nat.testBit_lt_two_pow
      calc k < 2 ^ 8 := hk
        _ ≤ 2 ^ i := Nat.pow_le_pow_right (by norm_num) (by omega)
    simp [h8, this]

theorem power_set_state_default_eq (c : Consts) (hw : Hw) (state : Int)
    (h1 : state ≠ c.REBOOT_RCM) (h2 : state ≠ c.REBOOT_BYPASS_FUSES) (h3 : state ≠ c.POWER_OFF) :
    power_set_state c hw state =
      ⟨[Effect.sd_end, Effect.hw_reinit_workaround false 0, Effect.max77620_rtc_stop_alarm,
        Effect.i2c_recv_byte c.I2C_5 c.MAX77620_I2C_ADDR c.MAX77620_REG_ONOFFCNFG2
          (hw.i2c_recv_byte c.I2C_5 c.MAX77620_I2C_ADDR c.MAX77620_REG_ONOFFCNFG2 % 256),
        Effect.i2c_send_byte c.I2C_5 c.MAX77620_I2C_ADDR c.MAX77620_REG_ONOFFCNFG2
          (power_set_state_wake c state
            (hw.i2c_recv_byte c.I2C_5 c.MAX77620_I2C_ADDR c.MAX77620_REG_ONOFFCNFG2 % 256)),
        Effect.i2c_send_byte c.I2C_5 c.MAX77620_I2C_ADDR c.MAX77620_REG_ONOFFCNFG1
          c.MAX77620_ONOFFCNFG1_SFT_RST],
       Ending.forever [Effect.bpmp_halt]⟩ := by
  simp [power_set_state, power_set_state_switch, power_set_state_default, h1, h2, h3,
    Run.andThen, Run.call, Run.while_true]

theorem labels_distinct_ne (c : Consts) (hl : c.labels_distinct) :
    (c.POWER_OFF ≠ c.REBOOT_RCM ∧ c.POWER_OFF ≠ c.REBOOT_BYPASS_FUSES) ∧
    (c.POWER_OFF_RESET ≠ c.REBOOT_RCM ∧ c.POWER_OFF_RESET ≠ c.REBOOT_BYPASS_FUSES ∧
      c.POWER_OFF_RESET ≠ c.POWER_OFF) ∧
    (c.POWER_OFF_REBOOT ≠ c.REBOOT_RCM ∧ c.POWER_OFF_REBOOT ≠ c.REBOOT_BYPASS_FUSES ∧
      c.POWER_OFF_REBOOT ≠ c.POWER_OFF ∧ c.POWER_OFF_REBOOT ≠ c.POWER_OFF_RESET) ∧
    c.REBOOT_BYPASS_FUSES ≠ c.REBOOT_RCM := by
  simp only [Consts.labels_distinct, List.nodup_cons, List.mem_cons, List.mem_singleton,
    not_or, List.not_mem_nil, not_false_eq_true, List.nodup_nil, and_true] at hl
  obtain ⟨⟨h12, h13, h14, h15⟩, ⟨h23, h24, h25⟩, ⟨h34, h35⟩, h45⟩ := hl
  exact ⟨⟨Ne.symm h13, Ne.symm h23⟩, ⟨Ne.symm h14, Ne.symm h24, Ne.symm h34⟩,
    ⟨Ne.symm h15, Ne.symm h25, Ne.symm h35, Ne.symm h45⟩, Ne.symm h12⟩

theorem power_set_state_reset_or_reboot_eq (c : Consts) (hw : Hw) (hl : c.labels_distinct)
    (state : Int) (hs : state = c.POWER_OFF_RESET ∨ state = c.POWER_OFF_REBOOT) :
    power_set_state c hw state =
      ⟨[Effect.sd_end, Effect.hw_reinit_workaround false 0, Effect.max77620_rtc_stop_alarm,
        Effect.i2c_recv_byte c.I2C_5 c.MAX77620_I2C_ADDR c.MAX77620_REG_ONOFFCNFG2
          (hw.i2c_recv_byte c.I2C_5 c.MAX77620_I2C_ADDR c.MAX77620_REG_ONOFFCNFG2 % 256),
        Effect.i2c_send_byte c.I2C_5 c.MAX77620_I2C_ADDR c.MAX77620_REG_ONOFFCNFG2
          (power_set_state_wake c state
            (hw.i2c_recv_byte c.I2C_5 c.MAX77620_I2C_ADDR c.MAX77620_REG_ONOFFCNFG2 % 256)),
        Effect.i2c_send_byte c.I2C_5 c.MAX77620_I2C_ADDR c.MAX77620_REG_ONOFFCNFG1
          c.MAX77620_ONOFFCNFG1_SFT_RST],
       Ending.forever [Effect.bpmp_halt]⟩ := by
  obtain ⟨_, ⟨a1, a2, a3⟩, ⟨b1, b2, b3, _⟩, _⟩ := labels_distinct_ne c hl
  rcases hs with hs | hs
  · rw [hs] at *
    exact power_set_state_default_eq c hw _ a1 a2 a3
  · rw [hs] at *
    exact power_set_state_default_eq c hw _ b1 b2 b3

/-! ## The claims -/

/-- C1: for every seed and every sequence of bytes, `crc32_calc`, on a first
call as well as with the table already built, returns the reference
bit-by-bit reflected CRC-32 (polynomial `0xEDB88320`) run from the register
`~seed` and complemented at the end; and from seed `0` the ASCII text
"123456789" gives `0xCBF43926`. -/
theorem crc32_calc_eq_ref_crc32 (seed : Nat) (data : List Nat) (hdata : ∀ b ∈ data, b < 256) :
    (crc32_calc none seed data).1 = ref_crc32 seed data ∧
    (crc32_calc (some crc32_make_table) seed data).1 = ref_crc32 seed data ∧
    (crc32_calc none 0 [0x31, 0x32, 0x33, 0x34, 0x35, 0x36, 0x37, 0x38, 0x39]).1
      = 0xCBF43926 := by
  refine ⟨?_, ?_, by decide⟩
  · simp only [crc32_calc, ref_crc32]
    rw [crc32_fold_eq data hdata]
  · simp only [crc32_calc, ref_crc32]
    rw [crc32_fold_eq data hdata]

theorem crc32_calc_eq_ref_crc32_witness :
    (∀ b ∈ [0x61, 0x62, 0x63], b < 256) ∧
    ((crc32_calc none 7 [0x61, 0x62, 0x63]).1 = ref_crc32 7 [0x61, 0x62, 0x63] ∧
    (crc32_calc (some crc32_make_table) 7 [0x61, 0x62, 0x63]).1 = ref_crc32 7 [0x61, 0x62, 0x63] ∧
    (crc32_calc none 0 [0x31, 0x32, 0x33, 0x34, 0x35, 0x36, 0x37, 0x38, 0x39]).1
      = 0xCBF43926) :=
  ⟨by decide, crc32_calc_eq_ref_crc32 7 [0x61, 0x62, 0x63] (by decide)⟩

/-- C2 (the code departs from the claim): whenever the loop of `sqrt64` is
given the three iterations it needs, `sqrt64(2)` is `0`, and with six
iterations `sqrt64(15)` is `0`; neither is the integer square root, since
`2 < (0 + 1) * (0 + 1)` and `15 < (0 + 1) * (0 + 1)` are false. -/
theorem sqrt64_two_and_fifteen_return_zero :
    (∀ fuel, sqrt64_fuel (fuel + 3) 2 = some 0) ∧
    (∀ fuel, sqrt64_fuel (fuel + 6) 15 = some 0) ∧
    ¬ (2 < (0 + 1) * (0 + 1)) ∧ ¬ (15 < (0 + 1) * (0 + 1)) := by
  refine ⟨fun fuel => ?_, fun fuel => ?_, by decide, by decide⟩
  · rfl
  · rfl

/-- C3 (the code departs from the claim): `131072 * 131072 = 2^34` fits in 64
bits, yet once the loop is given the 35 iterations it needs, `sqrt64(2^34)`
is `8589934593`, not `131072`. -/
theorem sqrt64_square_of_131072 :
    131072 * 131072 < 2 ^ 64 ∧
    ∀ fuel, sqrt64_fuel (fuel + 35) (131072 * 131072) = some 8589934593 := by
  refine ⟨by decide, fun fuel => ?_⟩
  rfl


/-- C4: the two power-off requests exclude each other.  For `POWER_OFF` the
only PMIC write is `MAX77620_REG_ONOFFCNFG1 := MAX77620_ONOFFCNFG1_PWR_OFF` and
`MAX77620_ONOFFCNFG1_SFT_RST` is written to no register; for `POWER_OFF_RESET`
and `POWER_OFF_REBOOT` the PMIC writes are one to `MAX77620_REG_ONOFFCNFG2`
followed by `MAX77620_REG_ONOFFCNFG1 := MAX77620_ONOFFCNFG1_SFT_RST`, and
`MAX77620_ONOFFCNFG1_PWR_OFF` is never written to `MAX77620_REG_ONOFFCNFG1`. -/
theorem power_off_requests_exclusive (c : Consts) (hw : Hw) (hl : c.labels_distinct)
    (hv : c.MAX77620_ONOFFCNFG1_PWR_OFF ≠ c.MAX77620_ONOFFCNFG1_SFT_RST)
    (hr : c.MAX77620_REG_ONOFFCNFG1 ≠ c.MAX77620_REG_ONOFFCNFG2) :
    (pmic_writes (power_set_state c hw c.POWER_OFF).trace =
        [(c.I2C_5, c.MAX77620_I2C_ADDR, c.MAX77620_REG_ONOFFCNFG1,
          c.MAX77620_ONOFFCNFG1_PWR_OFF)] ∧
      ∀ bus addr reg, Effect.i2c_send_byte bus addr reg c.MAX77620_ONOFFCNFG1_SFT_RST ∉
        (power_set_state c hw c.POWER_OFF).trace) ∧
    ∀ state, state = c.POWER_OFF_RESET ∨ state = c.POWER_OFF_REBOOT →
      (∃ val, pmic_writes (power_set_state c hw state).trace =
        [(c.I2C_5, c.MAX77620_I2C_ADDR, c.MAX77620_REG_ONOFFCNFG2, val),
         (c.I2C_5, c.MAX77620_I2C_ADDR, c.MAX77620_REG_ONOFFCNFG1,
          c.MAX77620_ONOFFCNFG1_SFT_RST)]) ∧
      ∀ bus addr, Effect.i2c_send_byte bus addr c.MAX77620_REG_ONOFFCNFG1
        c.MAX77620_ONOFFCNFG1_PWR_OFF ∉ (power_set_state c hw state).trace := by
  obtain ⟨⟨p1, p2⟩, _, _, _⟩ := labels_distinct_ne c hl
  refine ⟨?_, ?_⟩
  · have ht : (power_set_state c hw c.POWER_OFF).trace =
        [Effect.sd_end, Effect.hw_reinit_workaround false 0, Effect.max77620_rtc_stop_alarm,
         Effect.i2c_send_byte c.I2C_5 c.MAX77620_I2C_ADDR c.MAX77620_REG_ONOFFCNFG1
          c.MAX77620_ONOFFCNFG1_PWR_OFF] := by
      simp [power_set_state, power_set_state_switch, p1, p2, Run.andThen, Run.call,
        Run.while_true]
    rw [ht]
    refine ⟨rfl, ?_⟩
    intro bus addr reg hmem
    simp at hmem
    exact hv hmem.2.2.2.symm
  · intro state hs
    rw [power_set_state_reset_or_reboot_eq c hw hl state hs]
    refine ⟨⟨_, rfl⟩, ?_⟩
    intro bus addr hmem
    simp at hmem
    rcases hmem with hmem | hmem
    · exact hr hmem.2.2.1
    · exact hv hmem.2.2

theorem power_off_requests_exclusive_witness :
    (sample_consts.labels_distinct ∧
      sample_consts.MAX77620_ONOFFCNFG1_PWR_OFF ≠ sample_consts.MAX77620_ONOFFCNFG1_SFT_RST ∧
      sample_consts.MAX77620_REG_ONOFFCNFG1 ≠ sample_consts.MAX77620_REG_ONOFFCNFG2) ∧
    ((pmic_writes (power_set_state sample_consts sample_hw sample_consts.POWER_OFF).trace =
        [(sample_consts.I2C_5, sample_consts.MAX77620_I2C_ADDR,
          sample_consts.MAX77620_REG_ONOFFCNFG1, sample_consts.MAX77620_ONOFFCNFG1_PWR_OFF)] ∧
      ∀ bus addr reg,
        Effect.i2c_send_byte bus addr reg sample_consts.MAX77620_ONOFFCNFG1_SFT_RST ∉
        (power_set_state sample_consts sample_hw sample_consts.POWER_OFF).trace) ∧
    ∀ state, state = sample_consts.POWER_OFF_RESET ∨ state = sample_consts.POWER_OFF_REBOOT →
      (∃ val, pmic_writes (power_set_state sample_consts sample_hw state).trace =
        [(sample_consts.I2C_5, sample_consts.MAX77620_I2C_ADDR,
          sample_consts.MAX77620_REG_ONOFFCNFG2, val),
         (sample_consts.I2C_5, sample_consts.MAX77620_I2C_ADDR,
          sample_consts.MAX77620_REG_ONOFFCNFG1, sample_consts.MAX77620_ONOFFCNFG1_SFT_RST)]) ∧
      ∀ bus addr, Effect.i2c_send_byte bus addr sample_consts.MAX77620_REG_ONOFFCNFG1
        sample_consts.MAX77620_ONOFFCNFG1_PWR_OFF ∉
        (power_set_state sample_consts sample_hw state).trace) :=
  ⟨⟨by decide, by decide, by decide⟩,
    power_off_requests_exclusive sample_consts sample_hw (by decide) (by decide) (by decide)⟩

/-- C5: for `POWER_OFF_RESET` and `POWER_OFF_REBOOT`, after the three
tear-down calls `power_set_state` reads `MAX77620_REG_ONOFFCNFG2`, writes back
a value computed from the byte read, in which the bits of
`MAX77620_ONOFFCNFG2_SFT_RST_WK` are clear for `POWER_OFF_RESET` and set for
`POWER_OFF_REBOOT`, and only then writes `MAX77620_ONOFFCNFG1_SFT_RST` to
`MAX77620_REG_ONOFFCNFG1`. -/
theorem power_off_reset_wake_then_off (c : Consts) (hw : Hw) (hl : c.labels_distinct)
    (hwk : c.MAX77620_ONOFFCNFG2_SFT_RST_WK < 256) (state : Int)
    (hs : state = c.POWER_OFF_RESET ∨ state = c.POWER_OFF_REBOOT) :
    ∃ rd wr,
      rd = hw.i2c_recv_byte c.I2C_5 c.MAX77620_I2C_ADDR c.MAX77620_REG_ONOFFCNFG2 % 256 ∧
      wr = power_set_state_wake c state rd ∧
      (power_set_state c hw state).trace =
        [Effect.sd_end, Effect.hw_reinit_workaround false 0, Effect.max77620_rtc_stop_alarm,
         Effect.i2c_recv_byte c.I2C_5 c.MAX77620_I2C_ADDR c.MAX77620_REG_ONOFFCNFG2 rd,
         Effect.i2c_send_byte c.I2C_5 c.MAX77620_I2C_ADDR c.MAX77620_REG_ONOFFCNFG2 wr,
         Effect.i2c_send_byte c.I2C_5 c.MAX77620_I2C_ADDR c.MAX77620_REG_ONOFFCNFG1
          c.MAX77620_ONOFFCNFG1_SFT_RST] ∧
      (state = c.POWER_OFF_RESET → wr &&& c.MAX77620_ONOFFCNFG2_SFT_RST_WK = 0) ∧
      (state = c.POWER_OFF_REBOOT →
        wr &&& c.MAX77620_ONOFFCNFG2_SFT_RST_WK = c.MAX77620_ONOFFCNFG2_SFT_RST_WK) := by
  refine ⟨_, _, rfl, rfl, ?_, ?_, ?_⟩
  · rw [power_set_state_reset_or_reboot_eq c hw hl state hs]
  · intro h
    simp only [power_set_state_wake, h, if_true]
    exact and_not32_and_eq_zero _ _ _ _
  · intro h
    obtain ⟨_, _, ⟨_, _, _, b4⟩, _⟩ := labels_distinct_ne c hl
    simp only [power_set_state_wake, h, b4, if_false]
    exact or_mod_and_eq _ _ hwk

theorem power_off_reset_wake_then_off_witness :
    (sample_consts.labels_distinct ∧ sample_consts.MAX77620_ONOFFCNFG2_SFT_RST_WK < 256 ∧
      ((3 : Int) = sample_consts.POWER_OFF_RESET ∨ (3 : Int) = sample_consts.POWER_OFF_REBOOT)) ∧
    ∃ rd wr,
      rd = sample_hw.i2c_recv_byte sample_consts.I2C_5 sample_consts.MAX77620_I2C_ADDR
        sample_consts.MAX77620_REG_ONOFFCNFG2 % 256 ∧
      wr = power_set_state_wake sample_consts 3 rd ∧
      (power_set_state sample_consts sample_hw 3).trace =
        [Effect.sd_end, Effect.hw_reinit_workaround false 0, Effect.max77620_rtc_stop_alarm,
         Effect.i2c_recv_byte sample_consts.I2C_5 sample_consts.MAX77620_I2C_ADDR
          sample_consts.MAX77620_REG_ONOFFCNFG2 rd,
         Effect.i2c_send_byte sample_consts.I2C_5 sample_consts.MAX77620_I2C_ADDR
          sample_consts.MAX77620_REG_ONOFFCNFG2 wr,
         Effect.i2c_send_byte sample_consts.I2C_5 sample_consts.MAX77620_I2C_ADDR
          sample_consts.MAX77620_REG_ONOFFCNFG1 sample_consts.MAX77620_ONOFFCNFG1_SFT_RST] ∧
      (3 = sample_consts.POWER_OFF_RESET →
        wr &&& sample_consts.MAX77620_ONOFFCNFG2_SFT_RST_WK = 0) ∧
      (3 = sample_consts.POWER_OFF_REBOOT →
        wr &&& sample_consts.MAX77620_ONOFFCNFG2_SFT_RST_WK =
          sample_consts.MAX77620_ONOFFCNFG2_SFT_RST_WK) :=
  ⟨⟨by decide, by decide, Or.inl (by decide)⟩,
    power_off_reset_wake_then_off sample_consts sample_hw (by decide) (by decide) 3
      (Or.inl (by decide))⟩


/-- C6: for every state value, named or not, the effect trace of
`power_set_state` starts with `sd_end()`, `hw_reinit_workaround(false, 0)`,
`max77620_rtc_stop_alarm()`, in this order; every PMC access, I2C transfer,
watchdog start or halt comes after the three. -/
theorem power_set_state_teardown_first (c : Consts) (hw : Hw) (state : Int) :
    ∃ rest, (power_set_state c hw state).trace =
        [Effect.sd_end, Effect.hw_reinit_workaround false 0, Effect.max77620_rtc_stop_alarm]
          ++ rest ∧
      ∀ e ∈ rest, e ≠ Effect.sd_end ∧ e ≠ Effect.hw_reinit_workaround false 0 ∧
        e ≠ Effect.max77620_rtc_stop_alarm := by
  by_cases h1 : state = c.REBOOT_RCM
  · refine ⟨[Effect.pmc_write c.APBDEV_PMC_SCRATCH0 c.PMC_SCRATCH0_MODE_RCM,
      Effect.pmc_read c.APBDEV_PMC_CNTRL (hw.pmc c.APBDEV_PMC_CNTRL % 2 ^ 32),
      Effect.pmc_write c.APBDEV_PMC_CNTRL
        ((hw.pmc c.APBDEV_PMC_CNTRL % 2 ^ 32 ||| c.PMC_CNTRL_MAIN_RST) % 2 ^ 32)], ?_, ?_⟩
    · simp [power_set_state, power_set_state_switch, h1, Run.andThen, Run.call, Run.while_true]
    · simp
  by_cases h2 : state = c.REBOOT_BYPASS_FUSES
  · subst h2
    refine ⟨[Effect.pmc_write c.APBDEV_PMC_SCRATCH200 0x21,
      Effect.watchdog_start 0 c.TIMER_PMCRESET_EN], ?_, ?_⟩
    · simp [power_set_state, power_set_state_switch, panic, h1, Run.andThen, Run.call,
        Run.while_true, Run.skip]
    · simp
  by_cases h3 : state = c.POWER_OFF
  · subst h3
    refine ⟨[Effect.i2c_send_byte c.I2C_5 c.MAX77620_I2C_ADDR c.MAX77620_REG_ONOFFCNFG1
      c.MAX77620_ONOFFCNFG1_PWR_OFF], ?_, ?_⟩
    · simp [power_set_state, power_set_state_switch, h1, h2, Run.andThen, Run.call,
        Run.while_true]
    · simp
  · rw [power_set_state_default_eq c hw state h1 h2 h3]
    refine ⟨_, rfl, ?_⟩
    simp

/-- C7: with `REBOOT_BYPASS_FUSES`, `power_set_state` performs the three
tear-down calls, writes `0x21` to `APBDEV_PMC_SCRATCH200`, calls
`watchdog_start(0, TIMER_PMCRESET_EN)` and then spins without further effect.
Whatever the PMC held before, `APBDEV_PMC_SCRATCH200` holds `0x21` afterwards;
there is no I2C transfer and no write to `APBDEV_PMC_SCRATCH0` or
`APBDEV_PMC_CNTRL`. -/
theorem power_set_state_bypass_fuses (c : Consts) (hw : Hw)
    (hl : c.REBOOT_BYPASS_FUSES ≠ c.REBOOT_RCM)
    (h0 : c.APBDEV_PMC_SCRATCH0 ≠ c.APBDEV_PMC_SCRATCH200)
    (hc : c.APBDEV_PMC_CNTRL ≠ c.APBDEV_PMC_SCRATCH200) :
    power_set_state c hw c.REBOOT_BYPASS_FUSES =
      ⟨[Effect.sd_end, Effect.hw_reinit_workaround false 0, Effect.max77620_rtc_stop_alarm,
        Effect.pmc_write c.APBDEV_PMC_SCRATCH200 0x21,
        Effect.watchdog_start 0 c.TIMER_PMCRESET_EN], Ending.forever []⟩ ∧
    (∀ regs, pmc_after regs (power_set_state c hw c.REBOOT_BYPASS_FUSES).trace
      c.APBDEV_PMC_SCRATCH200 = 0x21) ∧
    (∀ e ∈ (power_set_state c hw c.REBOOT_BYPASS_FUSES).trace, e.is_i2c = false) ∧
    (∀ val, Effect.pmc_write c.APBDEV_PMC_SCRATCH0 val ∉
        (power_set_state c hw c.REBOOT_BYPASS_FUSES).trace ∧
      Effect.pmc_write c.APBDEV_PMC_CNTRL val ∉
        (power_set_state c hw c.REBOOT_BYPASS_FUSES).trace) := by
  have ht : power_set_state c hw c.REBOOT_BYPASS_FUSES =
      ⟨[Effect.sd_end, Effect.hw_reinit_workaround false 0, Effect.max77620_rtc_stop_alarm,
        Effect.pmc_write c.APBDEV_PMC_SCRATCH200 0x21,
        Effect.watchdog_start 0 c.TIMER_PMCRESET_EN], Ending.forever []⟩ := by
    simp [power_set_state, power_set_state_switch, panic, hl, Run.andThen, Run.call,
      Run.while_true, Run.skip]
  rw [ht]
  refine ⟨rfl, ?_, ?_, ?_⟩
  · intro regs
    simp [pmc_after]
  · intro e he
    simp at he
    rcases he with he | he | he | he | he <;> rw [he] <;> rfl
  · intro val
    simp [h0, hc]

theorem power_set_state_bypass_fuses_witness :
    (sample_consts.REBOOT_BYPASS_FUSES ≠ sample_consts.REBOOT_RCM ∧
      sample_consts.APBDEV_PMC_SCRATCH0 ≠ sample_consts.APBDEV_PMC_SCRATCH200 ∧
      sample_consts.APBDEV_PMC_CNTRL ≠ sample_consts.APBDEV_PMC_SCRATCH200) ∧
    (power_set_state sample_consts sample_hw sample_consts.REBOOT_BYPASS_FUSES =
      ⟨[Effect.sd_end, Effect.hw_reinit_workaround false 0, Effect.max77620_rtc_stop_alarm,
        Effect.pmc_write sample_consts.APBDEV_PMC_SCRATCH200 0x21,
        Effect.watchdog_start 0 sample_consts.TIMER_PMCRESET_EN], Ending.forever []⟩ ∧
    (∀ regs, pmc_after regs
      (power_set_state sample_consts sample_hw sample_consts.REBOOT_BYPASS_FUSES).trace
      sample_consts.APBDEV_PMC_SCRATCH200 = 0x21) ∧
    (∀ e ∈ (power_set_state sample_consts sample_hw sample_consts.REBOOT_BYPASS_FUSES).trace,
      e.is_i2c = false) ∧
    (∀ val, Effect.pmc_write sample_consts.APBDEV_PMC_SCRATCH0 val ∉
        (power_set_state sample_consts sample_hw sample_consts.REBOOT_BYPASS_FUSES).trace ∧
      Effect.pmc_write sample_consts.APBDEV_PMC_CNTRL val ∉
        (power_set_state sample_consts sample_hw sample_consts.REBOOT_BYPASS_FUSES).trace)) :=
  ⟨⟨by decide, by decide, by decide⟩,
    power_set_state_bypass_fuses sample_consts sample_hw (by decide) (by decide) (by decide)⟩

/-- C8: with `REBOOT_RCM`, after the three tear-down calls `power_set_state`
writes `PMC_SCRATCH0_MODE_RCM` to `APBDEV_PMC_SCRATCH0`, then reads
`APBDEV_PMC_CNTRL` and writes it back with the bits of `PMC_CNTRL_MAIN_RST`
set and every other bit as read, then halts forever; no I2C transfer and no
watchdog start occurs. -/
theorem power_set_state_reboot_rcm (c : Consts) (hw : Hw)
    (hm : c.PMC_CNTRL_MAIN_RST < 2 ^ 32) :
    ∃ rd wr,
      rd = hw.pmc c.APBDEV_PMC_CNTRL % 2 ^ 32 ∧
      power_set_state c hw c.REBOOT_RCM =
        ⟨[Effect.sd_end, Effect.hw_reinit_workaround false 0, Effect.max77620_rtc_stop_alarm,
          Effect.pmc_write c.APBDEV_PMC_SCRATCH0 c.PMC_SCRATCH0_MODE_RCM,
          Effect.pmc_read c.APBDEV_PMC_CNTRL rd,
          Effect.pmc_write c.APBDEV_PMC_CNTRL wr], Ending.forever [Effect.bpmp_halt]⟩ ∧
      wr = rd ||| c.PMC_CNTRL_MAIN_RST ∧
      (∀ i, wr.testBit i = if c.PMC_CNTRL_MAIN_RST.testBit i then true else rd.testBit i) ∧
      (∀ e ∈ (power_set_state c hw c.REBOOT_RCM).trace, e.is_i2c = false) ∧
      (∀ val mode, Effect.watchdog_start val mode ∉ (power_set_state c hw c.REBOOT_RCM).trace) := by
  have hlt : (hw.pmc c.APBDEV_PMC_CNTRL % 2 ^ 32 ||| c.PMC_CNTRL_MAIN_RST) < 2 ^ 32 :=
    Nat.or_lt_two_pow (Nat.mod_lt _ (by norm_num)) hm
  have ht : power_set_state c hw c.REBOOT_RCM =
      ⟨[Effect.sd_end, Effect.hw_reinit_workaround false 0, Effect.max77620_rtc_stop_alarm,
        Effect.pmc_write c.APBDEV_PMC_SCRATCH0 c.PMC_SCRATCH0_MODE_RCM,
        Effect.pmc_read c.APBDEV_PMC_CNTRL (hw.pmc c.APBDEV_PMC_CNTRL % 2 ^ 32),
        Effect.pmc_write c.APBDEV_PMC_CNTRL
          (hw.pmc c.APBDEV_PMC_CNTRL % 2 ^ 32 ||| c.PMC_CNTRL_MAIN_RST)],
        Ending.forever [Effect.bpmp_halt]⟩ := by
    simp only [power_set_state, power_set_state_switch, if_true, Run.andThen, Run.call,
      Run.while_true, List.cons_append, List.nil_append, Nat.mod_eq_of_lt hlt]
  rw [ht]
  refine ⟨_, _, rfl, rfl, rfl, ?_, ?_, ?_⟩
  · intro i
    rw [Nat.testBit_or]
    cases c.PMC_CNTRL_MAIN_RST.testBit i <;> simp
  · intro e he
    simp at he
    rcases he with he | he | he | he | he | he <;> rw [he] <;> rfl
  · intro val mode
    simp

theorem power_set_state_reboot_rcm_witness :
    sample_consts.PMC_CNTRL_MAIN_RST < 2 ^ 32 ∧
    ∃ rd wr,
      rd = sample_hw.pmc sample_consts.APBDEV_PMC_CNTRL % 2 ^ 32 ∧
      power_set_state sample_consts sample_hw sample_consts.REBOOT_RCM =
        ⟨[Effect.sd_end, Effect.hw_reinit_workaround false 0, Effect.max77620_rtc_stop_alarm,
          Effect.pmc_write sample_consts.APBDEV_PMC_SCRATCH0 sample_consts.PMC_SCRATCH0_MODE_RCM,
          Effect.pmc_read sample_consts.APBDEV_PMC_CNTRL rd,
          Effect.pmc_write sample_consts.APBDEV_PMC_CNTRL wr],
          Ending.forever [Effect.bpmp_halt]⟩ ∧
      wr = rd ||| sample_consts.PMC_CNTRL_MAIN_RST ∧
      (∀ i, wr.testBit i =
        if sample_consts.PMC_CNTRL_MAIN_RST.testBit i then true else rd.testBit i) ∧
      (∀ e ∈ (power_set_state sample_consts sample_hw sample_consts.REBOOT_RCM).trace,
        e.is_i2c = false) ∧
      (∀ val mode, Effect.watchdog_start val mode ∉
        (power_set_state sample_consts sample_hw sample_consts.REBOOT_RCM).trace) :=
  ⟨by decide, power_set_state_reboot_rcm sample_consts sample_hw (by decide)⟩

/-- C9: for every code, `panic(code)` writes `code` to `APBDEV_PMC_SCRATCH200`,
then calls `watchdog_start(0, TIMER_PMCRESET_EN)`, and then spins in a loop
with an empty body: these two are all its effects, in this order. -/
theorem panic_trace (c : Consts) (code : Nat) :
    panic c code =
      ⟨[Effect.pmc_write c.APBDEV_PMC_SCRATCH200 code,
        Effect.watchdog_start 0 c.TIMER_PMCRESET_EN], Ending.forever []⟩ := by
  rfl

/-- C10: a state value that is none of `REBOOT_RCM`, `REBOOT_BYPASS_FUSES`,
`POWER_OFF`, `POWER_OFF_RESET` (so in particular every value that is none of
the five named ones) is treated as `POWER_OFF_REBOOT`: `power_set_state` has
the same effects and ending for both, namely the tear-down, the read of `MAX77620_REG_ONOFFCNFG2`, its
write-back with `MAX77620_ONOFFCNFG2_SFT_RST_WK` or-ed in, and the write of
`MAX77620_ONOFFCNFG1_SFT_RST` to `MAX77620_REG_ONOFFCNFG1`. -/
theorem power_set_state_unlisted_as_reboot (c : Consts) (hw : Hw) (hl : c.labels_distinct)
    (state : Int) (h1 : state ≠ c.REBOOT_RCM) (h2 : state ≠ c.REBOOT_BYPASS_FUSES)
    (h3 : state ≠ c.POWER_OFF) (h4 : state ≠ c.POWER_OFF_RESET) :
    power_set_state c hw state = power_set_state c hw c.POWER_OFF_REBOOT ∧
    power_set_state c hw state =
      ⟨[Effect.sd_end, Effect.hw_reinit_workaround false 0, Effect.max77620_rtc_stop_alarm,
        Effect.i2c_recv_byte c.I2C_5 c.MAX77620_I2C_ADDR c.MAX77620_REG_ONOFFCNFG2
          (hw.i2c_recv_byte c.I2C_5 c.MAX77620_I2C_ADDR c.MAX77620_REG_ONOFFCNFG2 % 256),
        Effect.i2c_send_byte c.I2C_5 c.MAX77620_I2C_ADDR c.MAX77620_REG_ONOFFCNFG2
          ((hw.i2c_recv_byte c.I2C_5 c.MAX77620_I2C_ADDR c.MAX77620_REG_ONOFFCNFG2 % 256
            ||| c.MAX77620_ONOFFCNFG2_SFT_RST_WK) % 256),
        Effect.i2c_send_byte c.I2C_5 c.MAX77620_I2C_ADDR c.MAX77620_REG_ONOFFCNFG1
          c.MAX77620_ONOFFCNFG1_SFT_RST],
       Ending.forever [Effect.bpmp_halt]⟩ := by
  obtain ⟨_, _, ⟨b1, b2, b3, b4⟩, _⟩ := labels_distinct_ne c hl
  rw [power_set_state_default_eq c hw state h1 h2 h3,
    power_set_state_default_eq c hw _ b1 b2 b3]
  simp only [power_set_state_wake, h4, b4, if_false, and_self]

theorem power_set_state_unlisted_as_reboot_witness :
    (sample_consts.labels_distinct ∧ (77 : Int) ≠ sample_consts.REBOOT_RCM ∧
      (77 : Int) ≠ sample_consts.REBOOT_BYPASS_FUSES ∧ (77 : Int) ≠ sample_consts.POWER_OFF ∧
      (77 : Int) ≠ sample_consts.POWER_OFF_RESET) ∧
    (power_set_state sample_consts sample_hw 77 =
      power_set_state sample_consts sample_hw sample_consts.POWER_OFF_REBOOT ∧
    power_set_state sample_consts sample_hw 77 =
      ⟨[Effect.sd_end, Effect.hw_reinit_workaround false 0, Effect.max77620_rtc_stop_alarm,
        Effect.i2c_recv_byte sample_consts.I2C_5 sample_consts.MAX77620_I2C_ADDR
          sample_consts.MAX77620_REG_ONOFFCNFG2
          (sample_hw.i2c_recv_byte sample_consts.I2C_5 sample_consts.MAX77620_I2C_ADDR
            sample_consts.MAX77620_REG_ONOFFCNFG2 % 256),
        Effect.i2c_send_byte sample_consts.I2C_5 sample_consts.MAX77620_I2C_ADDR
          sample_consts.MAX77620_REG_ONOFFCNFG2
          ((sample_hw.i2c_recv_byte sample_consts.I2C_5 sample_consts.MAX77620_I2C_ADDR
            sample_consts.MAX77620_REG_ONOFFCNFG2 % 256
            ||| sample_consts.MAX77620_ONOFFCNFG2_SFT_RST_WK) % 256),
        Effect.i2c_send_byte sample_consts.I2C_5 sample_consts.MAX77620_I2C_ADDR
          sample_consts.MAX77620_REG_ONOFFCNFG1 sample_consts.MAX77620_ONOFFCNFG1_SFT_RST],
       Ending.forever [Effect.bpmp_halt]⟩) :=
  ⟨⟨by decide, by decide, by decide, by decide, by decide⟩,
    power_set_state_unlisted_as_reboot sample_consts sample_hw (by decide) 77
      (by decide) (by decide) (by decide) (by decide)⟩

/-! ## Lemmas on `sqrt64` -/

theorem sqrt64_loop_mids_fst (num fuel : Nat) (base limit square_root : Nat) (mids : List Nat) :
    (sqrt64_loop_mids num fuel base limit square_root mids).map Prod.fst =
      sqrt64_loop num fuel base limit square_root := by
  induction fuel generalizing base limit square_root mids with
  | zero => rfl
  | succ n ih =>
    unfold sqrt64_loop_mids sqrt64_loop
    by_cases h : base ≤ limit
    · simp only [h, if_true]
      split_ifs
      · rfl
      · exact ih _ _ _ _
      · exact ih _ _ _ _
    · simp only [h, if_false]
      rfl

theorem sqrt64_loop_stuck_at_max (fuel : Nat) :
    sqrt64_loop 18446744073709551615 fuel 1 18446744073709551615 1 = none := by
  induction fuel with
  | zero => rfl
  | succ n ih => exact ih

/-! ## The claims, continued -/

/-- C18 (the code departs from the claim): for `num = 2^64 - 1` the loop of
`sqrt64` is never left, whatever the number of iterations allowed.  After 65
iterations the state is `base = 1`, `limit = 2^64 - 1`, `square_root = 1`, where
`base + limit` wraps to `0`, the midpoint is `0`, and the iteration leads back
to the same state: the interval is not narrowed. -/
theorem sqrt64_max_never_leaves_loop :
    (∀ fuel, sqrt64_fuel fuel 18446744073709551615 = none) ∧
    (∀ fuel, sqrt64_fuel (fuel + 65) 18446744073709551615 =
      sqrt64_loop 18446744073709551615 fuel 1 18446744073709551615 1) ∧
    (∀ fuel, sqrt64_loop 18446744073709551615 (fuel + 1) 1 18446744073709551615 1 =
      sqrt64_loop 18446744073709551615 fuel 1 18446744073709551615 1) := by
  have h65 : ∀ fuel, sqrt64_fuel (fuel + 65) 18446744073709551615 =
      sqrt64_loop 18446744073709551615 fuel 1 18446744073709551615 1 := fun _ => rfl
  have hlow : ∀ fuel, fuel < 65 → sqrt64_fuel fuel 18446744073709551615 = none := by
    decide
  refine ⟨fun fuel => ?_, h65, fun _ => rfl⟩
  by_cases h : fuel < 65
  · exact hlow fuel h
  · obtain ⟨k, rfl⟩ : ∃ k, fuel = k + 65 := ⟨fuel - 65, by omega⟩
    rw [h65]
    exact sqrt64_loop_stuck_at_max k

/-- C19 (the code departs from the claim): for `num = 2` the search examines the
midpoints `1` and `2` and ends without an exact hit; the last midpoint with
`mid * mid < num` is `1`, but the value returned is `0`, the `base` of that
iteration. -/
theorem sqrt64_two_returns_base_not_midpoint :
    (∀ fuel, sqrt64_loop_mids 2 (fuel + 3) 0 2 0 [] = some (0, [1, 2])) ∧
    (∀ fuel, sqrt64_fuel (fuel + 3) 2 = some 0) ∧
    ([1, 2].filter (fun mid => decide (mid * mid % 2 ^ 64 = 2)) = []) ∧
    (([1, 2].filter (fun mid => decide (mid * mid % 2 ^ 64 < 2))).getLast? = some 1) := by
  refine ⟨fun _ => rfl, fun _ => rfl, by decide, by decide⟩


/-- C11: `power_set_state` never reaches its end, for any state value, and
neither does `panic` for any code: each run ends in an endless loop. -/
theorem power_set_state_and_panic_never_return (c : Consts) (hw : Hw) (state : Int)
    (code : Nat) :
    (power_set_state c hw state).ending ≠ Ending.returns ∧
    (∃ body, (power_set_state c hw state).ending = Ending.forever body) ∧
    (panic c code).ending ≠ Ending.returns ∧
    (panic c code).ending = Ending.forever [] := by
  have hp : (panic c code).ending = Ending.forever [] := rfl
  have hs : ∃ body, (power_set_state c hw state).ending = Ending.forever body := by
    by_cases h1 : state = c.REBOOT_RCM
    · exact ⟨[Effect.bpmp_halt], by
        simp [power_set_state, power_set_state_switch, h1, Run.andThen, Run.call,
          Run.while_true]⟩
    by_cases h2 : state = c.REBOOT_BYPASS_FUSES
    · subst h2
      exact ⟨[], by
        simp [power_set_state, power_set_state_switch, panic, h1, Run.andThen, Run.call,
          Run.while_true, Run.skip]⟩
    by_cases h3 : state = c.POWER_OFF
    · subst h3
      exact ⟨[Effect.bpmp_halt], by
        simp [power_set_state, power_set_state_switch, h1, h2, Run.andThen, Run.call,
          Run.while_true]⟩
    · exact ⟨[Effect.bpmp_halt], by rw [power_set_state_default_eq c hw state h1 h2 h3]⟩
  refine ⟨?_, hs, ?_, hp⟩
  · obtain ⟨body, hb⟩ := hs
    rw [hb]
    exact fun h => Ending.noConfusion h
  · rw [hp]
    exact fun h => Ending.noConfusion h

/-- C12: `power_set_state_ex`, given the address of a state value `s`, runs
exactly as `power_set_state(s)` does: same effects, same ending. -/
theorem power_set_state_ex_forwards (c : Consts) (hw : Hw) (mem : Nat → Int) (param : Nat)
    (s : Int) (hs : mem param = s) :
    power_set_state_ex c hw mem param = power_set_state c hw s := by
  unfold power_set_state_ex
  rw [hs]

theorem power_set_state_ex_forwards_witness :
    (fun a => if a = 0x1000 then (3 : Int) else 0) 0x1000 = 3 ∧
    power_set_state_ex sample_consts sample_hw (fun a => if a = 0x1000 then (3 : Int) else 0)
      0x1000 = power_set_state sample_consts sample_hw 3 :=
  ⟨by decide, power_set_state_ex_forwards sample_consts sample_hw
    (fun a => if a = 0x1000 then (3 : Int) else 0) 0x1000 3 (by decide)⟩


theorem effect_at_after_trace (r : Run) (n : Nat) :
    r.effect_at (r.trace.length + n) =
      match r.ending with
      | Ending.returns => none
      | Ending.forever body => body[n % body.length]? := by
  unfold Run.effect_at
  have h : ¬ (r.trace.length + n < r.trace.length) := by omega
  simp only [h, if_false, Nat.add_sub_cancel_left]

theorem power_set_state_not_bypass_eq (c : Consts) (hw : Hw) (state : Int)
    (hs : state ≠ c.REBOOT_BYPASS_FUSES) :
    (power_set_state c hw state).ending = Ending.forever [Effect.bpmp_halt] ∧
    Effect.bpmp_halt ∉ (power_set_state c hw state).trace := by
  by_cases h1 : state = c.REBOOT_RCM
  · simp [power_set_state, power_set_state_switch, h1, Run.andThen, Run.call, Run.while_true]
  by_cases h3 : state = c.POWER_OFF
  · subst h3
    simp [power_set_state, power_set_state_switch, h1, hs, Run.andThen, Run.call,
      Run.while_true]
  · rw [power_set_state_default_eq c hw state h1 hs h3]
    simp

theorem power_set_state_bypass_eq (c : Consts) (hw : Hw)
    (hl : c.REBOOT_BYPASS_FUSES ≠ c.REBOOT_RCM) :
    power_set_state c hw c.REBOOT_BYPASS_FUSES =
      ⟨[Effect.sd_end, Effect.hw_reinit_workaround false 0, Effect.max77620_rtc_stop_alarm,
        Effect.pmc_write c.APBDEV_PMC_SCRATCH200 0x21,
        Effect.watchdog_start 0 c.TIMER_PMCRESET_EN], Ending.forever []⟩ := by
  simp [power_set_state, power_set_state_switch, panic, hl, Run.andThen, Run.call,
    Run.while_true, Run.skip]

/-- C20, the claim as stated fails: with `REBOOT_BYPASS_FUSES` the run of
`power_set_state` ends inside `panic`, in a loop with an empty body; nothing
follows the watchdog start, and no `bpmp_halt` is ever called. -/
theorem bypass_fuses_spins_without_halt :
    (power_set_state sample_consts sample_hw sample_consts.REBOOT_BYPASS_FUSES).ending =
      Ending.forever [] ∧
    (power_set_state sample_consts sample_hw sample_consts.REBOOT_BYPASS_FUSES).trace.length = 5 ∧
    (∀ n, (power_set_state sample_consts sample_hw
      sample_consts.REBOOT_BYPASS_FUSES).effect_at n ≠ some Effect.bpmp_halt) ∧
    ¬ (∀ state n, (power_set_state sample_consts sample_hw state).effect_at
        ((power_set_state sample_consts sample_hw state).trace.length + n) =
      some Effect.bpmp_halt) := by
  have hrun := power_set_state_bypass_eq sample_consts sample_hw (by decide)
  refine ⟨by rw [hrun], by rw [hrun]; rfl, ?_, ?_⟩
  · intro n
    rw [hrun]
    unfold Run.effect_at
    by_cases h : n < 5
    · interval_cases n <;> decide
    · simp [h]
  · intro hall
    have h0 := hall sample_consts.REBOOT_BYPASS_FUSES 0
    rw [effect_at_after_trace, hrun] at h0
    simp at h0

/-- C20, amended: for every state value other than `REBOOT_BYPASS_FUSES`, after
the hardware action every further effect of `power_set_state` is a call of
`bpmp_halt`, without end, and no `bpmp_halt` occurs before; for
`REBOOT_BYPASS_FUSES` the run stays in the empty loop of `panic` and no further
effect follows. -/
theorem power_set_state_after_action (c : Consts) (hw : Hw) (state : Int)
    (hl : c.REBOOT_BYPASS_FUSES ≠ c.REBOOT_RCM) :
    (power_set_state c hw state).ending =
      (if state = c.REBOOT_BYPASS_FUSES then Ending.forever []
        else Ending.forever [Effect.bpmp_halt]) ∧
    (∀ n, (power_set_state c hw state).effect_at ((power_set_state c hw state).trace.length + n) =
      if state = c.REBOOT_BYPASS_FUSES then none else some Effect.bpmp_halt) ∧
    Effect.bpmp_halt ∉ (power_set_state c hw state).trace := by
  by_cases hs : state = c.REBOOT_BYPASS_FUSES
  · subst hs
    simp only [if_true, effect_at_after_trace]
    rw [power_set_state_bypass_eq c hw hl]
    simp
  · obtain ⟨he, ht⟩ := power_set_state_not_bypass_eq c hw state hs
    simp only [hs, if_false, effect_at_after_trace]
    rw [he]
    refine ⟨rfl, ?_, ht⟩
    intro n
    simp [Nat.mod_one]

theorem power_set_state_after_action_witness :
    sample_consts.REBOOT_BYPASS_FUSES ≠ sample_consts.REBOOT_RCM ∧
    ((power_set_state sample_consts sample_hw 2).ending =
      (if (2 : Int) = sample_consts.REBOOT_BYPASS_FUSES then Ending.forever []
        else Ending.forever [Effect.bpmp_halt]) ∧
    (∀ n, (power_set_state sample_consts sample_hw 2).effect_at
        ((power_set_state sample_consts sample_hw 2).trace.length + n) =
      if (2 : Int) = sample_consts.REBOOT_BYPASS_FUSES then none else some Effect.bpmp_halt) ∧
    Effect.bpmp_halt ∉ (power_set_state sample_consts sample_hw 2).trace) :=
  ⟨by decide, power_set_state_after_action sample_consts sample_hw 2 (by decide)⟩


/-! ## Lemmas on `exec_cfg` and the bit utilities -/

theorem exec_cfg_append (base : List Nat) (ops : List cfg_op_t) (op : cfg_op_t) :
    exec_cfg base (ops ++ [op]) = (exec_cfg base ops).set op.off op.val := by
  induction ops generalizing base with
  | nil => rfl
  | cons o os ih => exact ih _

theorem exec_cfg_length (base : List Nat) (ops : List cfg_op_t) :
    (exec_cfg base ops).length = base.length := by
  induction ops generalizing base with
  | nil => rfl
  | cons o os ih => rw [exec_cfg, ih, List.length_set]

theorem bit_test_iff (val i : Nat) : ((val >>> i) &&& 1 ≠ 0) ↔ val.testBit i = true := by
  rw [Nat.and_one_is_mod, Nat.shiftRight_eq_div_pow, Nat.testBit_to_div_mod]
  simp

theorem bit_count_loop_eq (val : Nat) (n i : Nat) (h : i + n ≤ 255) :
    bit_count_loop val n i (Nat.count (fun k => val.testBit k = true) i) =
      Nat.count (fun k => val.testBit k = true) (i + n) := by
  induction n generalizing i with
  | zero => rfl
  | succ n ih =>
    have hc : Nat.count (fun k => val.testBit k = true) i ≤ i := Nat.count_le _
    have hstep : (if (val >>> i) &&& 1 ≠ 0
        then (Nat.count (fun k => val.testBit k = true) i + 1) % 256
        else Nat.count (fun k => val.testBit k = true) i) =
        Nat.count (fun k => val.testBit k = true) (i + 1) := by
      rw [Nat.count_succ]
      by_cases hb : val.testBit i = true
      · have hb2 : (val >>> i) &&& 1 ≠ 0 := (bit_test_iff val i).2 hb
        rw [if_pos hb2, if_pos hb]
        exact Nat.mod_eq_of_lt (by omega)
      · have hb2 : ¬ ((val >>> i) &&& 1 ≠ 0) := fun h2 => hb ((bit_test_iff val i).1 h2)
        rw [if_neg hb2, if_neg hb]
        rfl
    rw [bit_count_loop, hstep, ih (i + 1) (by omega)]
    congr 1
    omega

theorem bit_count_eq_count (val : Nat) :
    bit_count val = Nat.count (fun k => val.testBit k = true) 32 := by
  have h := bit_count_loop_eq val 32 0 (by omega)
  simpa [bit_count] using h

theorem bit_count_mask_le_32 (bits : Nat) (h : bits ≤ 32) :
    bit_count_mask bits = 2 ^ bits - 1 := by
  interval_cases bits <;> rfl

/-- C13: when every offset of `ops` lies inside the register block, then for
each offset `k` that occurs in `ops` the block after `exec_cfg` holds at `k`
the value of the last op of the sequence whose offset is `k`. -/
theorem exec_cfg_last_op_wins (base : List Nat) (ops : List cfg_op_t)
    (hin : ∀ op ∈ ops, op.off < base.length) (k : Nat) (hk : ∃ op ∈ ops, op.off = k) :
    (exec_cfg base ops)[k]? =
      ((ops.filter (fun op => decide (op.off = k))).getLast?).map (fun op => op.val) := by
  induction ops using List.reverseRecOn with
  | nil =>
    obtain ⟨op, hop, _⟩ := hk
    exact absurd hop (List.not_mem_nil op)
  | append_singleton os o ih =>
    have hin2 : ∀ op ∈ os, op.off < base.length :=
      fun op hop => hin op (List.mem_append_left _ hop)
    rw [exec_cfg_append, List.filter_append]
    by_cases ho : o.off = k
    · have hlt : k < (exec_cfg base os).length := by
        rw [exec_cfg_length, ← ho]
        exact hin o (List.mem_append_right _ (List.mem_singleton_self o))
      simp [ho, List.getElem?_set, hlt]
    · have hk2 : ∃ op ∈ os, op.off = k := by
        obtain ⟨op, hop, hoff⟩ := hk
        rcases List.mem_append.1 hop with h1 | h1
        · exact ⟨op, h1, hoff⟩
        · rw [List.mem_singleton] at h1
          rw [h1] at hoff
          exact absurd hoff ho
      simp [ho, List.getElem?_set, ih hin2 hk2]

theorem exec_cfg_last_op_wins_witness :
    ((∀ op ∈ [(⟨1, 5⟩ : cfg_op_t), ⟨2, 6⟩, ⟨1, 7⟩], op.off < [0, 0, 0, 0].length) ∧
      ∃ op ∈ [(⟨1, 5⟩ : cfg_op_t), ⟨2, 6⟩, ⟨1, 7⟩], op.off = 1) ∧
    (exec_cfg [0, 0, 0, 0] [⟨1, 5⟩, ⟨2, 6⟩, ⟨1, 7⟩])[1]? =
      (([(⟨1, 5⟩ : cfg_op_t), ⟨2, 6⟩, ⟨1, 7⟩].filter
        (fun op => decide (op.off = 1))).getLast?).map (fun op => op.val) :=
  ⟨⟨by decide, by decide⟩,
    exec_cfg_last_op_wins [0, 0, 0, 0] [⟨1, 5⟩, ⟨2, 6⟩, ⟨1, 7⟩] (by decide) 1 (by decide)⟩

/-- C14: for every `v`, `bit_count(v)` is the number of ones among the 32 bit
positions of `v`; it is at most 32, so the 8-bit counter does not wrap; and
`bit_count` gives `0`, `1`, `32`, `1` on `0`, `1`, `0xFFFFFFFF`, `0x80000000`. -/
theorem bit_count_eq_popcount (v : Nat) :
    bit_count v = ref_popcount32 v ∧ bit_count v ≤ 32 ∧
    bit_count 0 = 0 ∧ bit_count 1 = 1 ∧ bit_count 0xFFFFFFFF = 32 ∧
    bit_count 0x80000000 = 1 := by
  have h1 : bit_count v = ref_popcount32 v := by
    rw [bit_count_eq_count, Nat.count_eq_card_filter_range]
    rfl
  refine ⟨h1, ?_, by decide, by decide, by decide, by decide⟩
  rw [bit_count_eq_count]
  exact Nat.count_le _

/-- C15: for every `n` from 0 to 31, `bit_count_mask(n)` is `(1 << n) - 1`,
that is `2^n - 1`; in particular `bit_count_mask(0) = 0` and
`bit_count_mask(4) = 0xF`. -/
theorem bit_count_mask_low (n : Nat) (h : n ≤ 31) :
    bit_count_mask n = (1 <<< n) - 1 ∧ bit_count_mask n = 2 ^ n - 1 ∧
    bit_count_mask 0 = 0 ∧ bit_count_mask 4 = 0xF := by
  have h2 : bit_count_mask n = 2 ^ n - 1 := bit_count_mask_le_32 n (by omega)
  refine ⟨?_, h2, rfl, rfl⟩
  rw [h2, Nat.one_shiftLeft]

theorem bit_count_mask_low_witness :
    5 ≤ 31 ∧ (bit_count_mask 5 = (1 <<< 5) - 1 ∧ bit_count_mask 5 = 2 ^ 5 - 1 ∧
    bit_count_mask 0 = 0 ∧ bit_count_mask 4 = 0xF) :=
  ⟨by decide, bit_count_mask_low 5 (by decide)⟩

/-- C16: for every `bits` from 0 to 32, with `1 << i` taken modulo `2^32`,
`bit_count_mask(bits)` has exactly the bits below position `bits` set, so
`bit_count` of it is `bits`; and `bit_count_mask(32) = 0xFFFFFFFF`. -/
theorem bit_count_mask_exact (bits : Nat) (h : bits ≤ 32) :
    (∀ i, (bit_count_mask bits).testBit i = decide (i < bits)) ∧
    bit_count (bit_count_mask bits) = bits ∧
    bit_count_mask 32 = 0xFFFFFFFF := by
  refine ⟨?_, ?_, rfl⟩
  · intro i
    rw [bit_count_mask_le_32 bits h, Nat.testBit_two_pow_sub_one]
  · interval_cases bits <;> rfl

theorem bit_count_mask_exact_witness :
    32 ≤ 32 ∧ ((∀ i, (bit_count_mask 32).testBit i = decide (i < 32)) ∧
    bit_count (bit_count_mask 32) = 32 ∧
    bit_count_mask 32 = 0xFFFFFFFF) :=
  ⟨by decide, bit_count_mask_exact 32 (by decide)⟩

/-- C17: whether the static table pointer is still `NULL` or already points to
the built table, `crc32_calc` returns the value a first call returns for the
same arguments, leaves the pointer at the built table, and an immediately
repeated call with the same arguments returns the same value again. -/
theorem crc32_calc_table_independent (table : Option (List Nat)) (seed : Nat)
    (data : List Nat) (ht : table = none ∨ table = some crc32_make_table) :
    (crc32_calc table seed data).1 = (crc32_calc none seed data).1 ∧
    (crc32_calc table seed data).2 = some crc32_make_table ∧
    (crc32_calc (crc32_calc table seed data).2 seed data).1 =
      (crc32_calc table seed data).1 := by
  rcases ht with ht | ht <;> subst ht <;> exact ⟨rfl, rfl, rfl⟩

theorem crc32_calc_table_independent_witness :
    ((none : Option (List Nat)) = none ∨ (none : Option (List Nat)) = some crc32_make_table) ∧
    ((crc32_calc none 7 [0x61, 0x62]).1 = (crc32_calc none 7 [0x61, 0x62]).1 ∧
    (crc32_calc none 7 [0x61, 0x62]).2 = some crc32_make_table ∧
    (crc32_calc (crc32_calc none 7 [0x61, 0x62]).2 7 [0x61, 0x62]).1 =
      (crc32_calc none 7 [0x61, 0x62]).1) :=
  ⟨Or.inl rfl, crc32_calc_table_independent none 7 [0x61, 0x62] (Or.inl rfl)⟩

/-! ## Further lemmas on the CRC -/

theorem ref_crc32_bit_lt (x : Nat) (h : x < 2 ^ 32) : ref_crc32_bit x < 2 ^ 32 := by
  unfold ref_crc32_bit
  have h2 : x / 2 < 2 ^ 32 := by omega
  split_ifs
  · exact Nat.xor_lt_two_pow h2 (by norm_num)
  · exact h2

theorem ref_crc32_bit_iter_lt (n x : Nat) (h : x < 2 ^ 32) : ref_crc32_bit^[n] x < 2 ^ 32 := by
  induction n generalizing x with
  | zero => exact h
  | succ n ih =>
    rw [Function.iterate_succ_apply]
    exact ih _ (ref_crc32_bit_lt x h)

theorem crc32_make_table_length : crc32_make_table.length = 256 := by
  simp [crc32_make_table]

theorem crc32_make_table_getD_lt (i : Nat) : crc32_make_table.getD i 0 < 2 ^ 32 := by
  by_cases h : i < 256
  · rw [crc32_make_table_getD i h]
    exact ref_crc32_bit_iter_lt 8 i (by omega)
  · rw [List.getD_eq_getElem?_getD, List.getElem?_eq_none (by rw [crc32_make_table_length]; omega)]
    norm_num

theorem crc32_byte_lt (crc oct : Nat) (h : crc < 2 ^ 32) :
    crc32_byte crc32_make_table crc oct < 2 ^ 32 := by
  unfold crc32_byte
  apply Nat.xor_lt_two_pow
  · rw [Nat.shiftRight_eq_div_pow]
    exact lt_of_le_of_lt (Nat.div_le_self _ _) h
  · exact crc32_make_table_getD_lt _

theorem crc32_fold_lt (buf : List Nat) (crc : Nat) (h : crc < 2 ^ 32) :
    buf.foldl (crc32_byte crc32_make_table) crc < 2 ^ 32 := by
  induction buf generalizing crc with
  | nil => exact h
  | cons b bs ih => exact ih _ (crc32_byte_lt crc b h)

theorem not32_lt (x : Nat) : not32 x < 2 ^ 32 := by
  unfold not32
  exact Nat.xor_lt_two_pow (Nat.mod_lt _ (by norm_num)) (by norm_num)

theorem not32_not32 (x : Nat) (h : x < 2 ^ 32) : not32 (not32 x) = x := by
  have hl := not32_lt x
  unfold not32 at hl ⊢
  rw [Nat.mod_eq_of_lt hl, Nat.mod_eq_of_lt h, Nat.xor_assoc, Nat.xor_self, Nat.xor_zero]

theorem crc32_calc_fst (table : Option (List Nat)) (seed : Nat) (data : List Nat)
    (ht : table = none ∨ table = some crc32_make_table) :
    crc32_calc table seed data =
      (not32 (data.foldl (crc32_byte crc32_make_table) (not32 seed)), some crc32_make_table) := by
  rcases ht with ht | ht <;> subst ht <;> rfl

/-- C21: the first call of `crc32_calc` leaves a table of 256 entries whose
entry `i` is the result of eight reflected shift-and-conditional-xor steps
with `0xEDB88320` on `i`; entries 0, 1 and 128 are `0`, `0x77073096` and
`0xEDB88320`; and any later call leaves the table as it is. -/
theorem crc32_table_built_once (seed : Nat) (data : List Nat) (seed2 : Nat) (data2 : List Nat) :
    ∃ t, (crc32_calc none seed data).2 = some t ∧ t.length = 256 ∧
      (∀ i, i < 256 → t[i]? = some (ref_crc32_bit^[8] i)) ∧
      t[0]? = some 0 ∧ t[1]? = some 0x77073096 ∧ t[128]? = some 0xEDB88320 ∧
      (crc32_calc (some t) seed2 data2).2 = some t := by
  have key : ∀ i, i < 256 → crc32_make_table[i]? = some (ref_crc32_bit^[8] i) := by
    intro i hi
    have h := crc32_make_table_getD i hi
    rw [List.getD_eq_getElem?_getD] at h
    have hlt : i < crc32_make_table.length := by rw [crc32_make_table_length]; exact hi
    rw [List.getElem?_eq_getElem hlt] at h ⊢
    simpa using h
  refine ⟨crc32_make_table, rfl, crc32_make_table_length, key, ?_, ?_, ?_, rfl⟩
  · rw [key 0 (by norm_num)]; rfl
  · rw [key 1 (by norm_num)]; rfl
  · rw [key 128 (by norm_num)]; rfl

/-- C22: `crc32_calc` can be chained: the checksum of `a` used as the seed for
`b` gives the checksum of `a ++ b` from the original seed, whatever the state
of the table pointer; and on the empty sequence a 32-bit seed comes back
unchanged. -/
theorem crc32_calc_chain (table : Option (List Nat)) (s : Nat) (a b : List Nat)
    (ht : table = none ∨ table = some crc32_make_table) (hs : s < 2 ^ 32) :
    (crc32_calc (crc32_calc table s a).2 (crc32_calc table s a).1 b).1 =
      (crc32_calc table s (a ++ b)).1 ∧
    (crc32_calc table s []).1 = s := by
  rw [crc32_calc_fst table s a ht, crc32_calc_fst table s (a ++ b) ht,
    crc32_calc_fst table s [] ht]
  simp only []
  rw [crc32_calc_fst (some crc32_make_table) _ b (Or.inr rfl)]
  simp only [List.foldl_append, List.foldl_nil]
  refine ⟨?_, not32_not32 s hs⟩
  rw [not32_not32 _ (crc32_fold_lt a _ (not32_lt s))]

theorem crc32_calc_chain_witness :
    (((none : Option (List Nat)) = none ∨ (none : Option (List Nat)) = some crc32_make_table) ∧
      7 < 2 ^ 32) ∧
    ((crc32_calc (crc32_calc none 7 [0x61, 0x62]).2 (crc32_calc none 7 [0x61, 0x62]).1 [0x63]).1 =
      (crc32_calc none 7 ([0x61, 0x62] ++ [0x63])).1 ∧
    (crc32_calc none 7 []).1 = 7) :=
  ⟨⟨Or.inl rfl, by decide⟩, crc32_calc_chain none 7 [0x61, 0x62] [0x63] (Or.inl rfl) (by decide)⟩

/-! ## Lemmas on `sqrt64` for small arguments -/

theorem sqrt64_loop_unfold (num fuel base limit square_root : Nat) (hbl : base ≤ limit)
    (hl : limit < 2 ^ 32) :
    sqrt64_loop num (fuel + 1) base limit square_root =
      if (base + limit) / 2 * ((base + limit) / 2) = num then some ((base + limit) / 2)
      else if (base + limit) / 2 * ((base + limit) / 2) < num then
        sqrt64_loop num fuel ((base + limit) / 2 + 1) limit base
      else sqrt64_loop num fuel base ((base + limit) / 2 - 1) square_root := by
  have h1 : (base + limit) % 2 ^ 64 = base + limit := Nat.mod_eq_of_lt (by omega)
  have ht : (base + limit) / 2 < 2 ^ 32 := by omega
  have h2 : (base + limit) / 2 * ((base + limit) / 2) % 2 ^ 64 =
      (base + limit) / 2 * ((base + limit) / 2) := by
    apply Nat.mod_eq_of_lt
    calc (base + limit) / 2 * ((base + limit) / 2) < 2 ^ 32 * 2 ^ 32 := Nat.mul_lt_mul_of_lt_of_lt ht ht
      _ = 2 ^ 64 := by norm_num
  have h3 : ((base + limit) / 2 + 1) % 2 ^ 64 = (base + limit) / 2 + 1 :=
    Nat.mod_eq_of_lt (by omega)
  rw [sqrt64_loop]
  simp only [hbl, if_true, h1, h2, h3]
  by_cases he : (base + limit) / 2 * ((base + limit) / 2) = num
  · simp only [he, if_true]
  · by_cases hlt : (base + limit) / 2 * ((base + limit) / 2) < num
    · simp only [he, hlt, if_true, if_false]
    · simp only [he, hlt, if_false]
      have hpos : 0 < (base + limit) / 2 := by
        rcases Nat.eq_zero_or_pos ((base + limit) / 2) with h0 | h0
        · rw [h0] at he hlt
          omega
        · exact h0
      have h4 : ((base + limit) / 2 + 2 ^ 64 - 1) % 2 ^ 64 = (base + limit) / 2 - 1 := by
        omega
      rw [h4]

theorem sqrt64_loop_small_le (num : Nat) (hn : num < 2 ^ 32) (fuel : Nat) :
    ∀ base limit square_root, limit ≤ num → base ≤ limit + 1 →
      square_root * square_root ≤ num →
      ∀ r, sqrt64_loop num fuel base limit square_root = some r → r * r ≤ num := by
  induction fuel with
  | zero =>
    intro base limit sr _ _ _ r hr
    simp [sqrt64_loop] at hr
  | succ n ih =>
    intro base limit sr hl hb hsr r hr
    by_cases hbl : base ≤ limit
    · rw [sqrt64_loop_unfold num n base limit sr hbl (by omega)] at hr
      by_cases he : (base + limit) / 2 * ((base + limit) / 2) = num
      · simp only [he, if_true, Option.some.injEq] at hr
        rw [← hr, he]
      · by_cases hlt : (base + limit) / 2 * ((base + limit) / 2) < num
        · simp only [he, hlt, if_true, if_false] at hr
          have hbt : base ≤ (base + limit) / 2 := by omega
          have hbb : base * base ≤ num :=
            le_trans (Nat.mul_le_mul hbt hbt) (Nat.le_of_lt hlt)
          exact ih _ _ _ hl (by omega) hbb r hr
        · simp only [he, hlt, if_false] at hr
          have hpos : 0 < (base + limit) / 2 := by
            rcases Nat.eq_zero_or_pos ((base + limit) / 2) with h0 | h0
            · rw [h0] at he hlt
              omega
            · exact h0
          exact ih _ _ _ (by omega) (by omega) hsr r hr
    · rw [sqrt64_loop] at hr
      simp only [hbl, if_false, Option.some.injEq] at hr
      rw [← hr]
      exact hsr

theorem sqrt64_loop_small_some (num : Nat) (hn : num < 2 ^ 32) (fuel : Nat) :
    ∀ base limit square_root, limit ≤ num → base ≤ limit + 1 →
      limit + 1 - base < 2 ^ fuel →
      ∃ r, sqrt64_loop num (fuel + 1) base limit square_root = some r := by
  induction fuel with
  | zero =>
    intro base limit sr hl hb hw
    have hbl : ¬ base ≤ limit := by
      simp at hw
      omega
    exact ⟨sr, by rw [sqrt64_loop]; simp only [hbl, if_false]⟩
  | succ n ih =>
    intro base limit sr hl hb hw
    by_cases hbl : base ≤ limit
    · rw [sqrt64_loop_unfold num (n + 1) base limit sr hbl (by omega)]
      have hp : 2 ^ (n + 1) = 2 * 2 ^ n := by ring
      by_cases he : (base + limit) / 2 * ((base + limit) / 2) = num
      · exact ⟨(base + limit) / 2, by simp only [he, if_true]⟩
      · by_cases hlt : (base + limit) / 2 * ((base + limit) / 2) < num
        · simp only [he, hlt, if_true, if_false]
          exact ih _ _ _ hl (by omega) (by omega)
        · simp only [he, hlt, if_false]
          have hpos : 0 < (base + limit) / 2 := by
            rcases Nat.eq_zero_or_pos ((base + limit) / 2) with h0 | h0
            · rw [h0] at he hlt
              omega
            · exact h0
          exact ih _ _ _ (by omega) (by omega) (by omega)
    · exact ⟨sr, by rw [sqrt64_loop]; simp only [hbl, if_false]⟩

theorem sqrt64_loop_square (r : Nat) (hr : r < 2 ^ 16) (fuel : Nat) :
    ∀ base limit square_root, limit ≤ r * r → base ≤ r → r ≤ limit →
      limit + 1 - base < 2 ^ fuel →
      sqrt64_loop (r * r) (fuel + 1) base limit square_root = some r := by
  have hrr : r * r < 2 ^ 32 := by
    calc r * r < 2 ^ 16 * 2 ^ 16 := Nat.mul_lt_mul_of_lt_of_lt hr hr
      _ = 2 ^ 32 := by norm_num
  induction fuel with
  | zero =>
    intro base limit sr hl hb hrl hw
    simp at hw
    omega
  | succ n ih =>
    intro base limit sr hl hb hrl hw
    have hbl : base ≤ limit := le_trans hb hrl
    rw [sqrt64_loop_unfold (r * r) (n + 1) base limit sr hbl (by omega)]
    have hp : 2 ^ (n + 1) = 2 * 2 ^ n := by ring
    by_cases he : (base + limit) / 2 * ((base + limit) / 2) = r * r
    · simp only [he, if_true]
      congr 1
      exact Nat.mul_self_inj.1 he
    · by_cases hlt : (base + limit) / 2 * ((base + limit) / 2) < r * r
      · simp only [he, hlt, if_true, if_false]
        have : (base + limit) / 2 < r := Nat.mul_self_lt_mul_self_iff.1 hlt
        exact ih _ _ _ hl (by omega) hrl (by omega)
      · simp only [he, hlt, if_false]
        have hgt : r * r < (base + limit) / 2 * ((base + limit) / 2) := by omega
        have : r < (base + limit) / 2 := Nat.mul_self_lt_mul_self_iff.1 hgt
        exact ih _ _ _ (by omega) hb (by omega) (by omega)

theorem sqrt64_loop_eq_step (num fuel base limit square_root : Nat) :
    sqrt64_loop num (fuel + 1) base limit square_root =
      match sqrt64_step num (base, limit, square_root) with
      | some st => sqrt64_loop num fuel st.1 st.2.1 st.2.2
      | none => some (if base ≤ limit then ((base + limit) % 2 ^ 64) / 2 else square_root) := by
  rw [sqrt64_loop]
  simp only [sqrt64_step]
  split_ifs <;> rfl

theorem sqrt64_state_inv (num : Nat) (hn : num < 2 ^ 32) (n : Nat) :
    ∀ base limit square_root, sqrt64_state num n = some (base, limit, square_root) →
      limit ≤ num ∧ base ≤ limit + 1 := by
  induction n with
  | zero =>
    intro base limit sr h
    simp only [sqrt64_state, Option.some.injEq, Prod.mk.injEq] at h
    omega
  | succ k ih =>
    intro base limit sr h
    rw [sqrt64_state] at h
    cases hst : sqrt64_state num k with
    | none => rw [hst] at h; simp at h
    | some st =>
      obtain ⟨b, l, s⟩ := st
      obtain ⟨hl, hb⟩ := ih b l s hst
      rw [hst] at h
      simp only [Option.some_bind, sqrt64_step] at h
      have h1 : (b + l) % 2 ^ 64 = b + l := Nat.mod_eq_of_lt (by omega)
      rw [h1] at h
      split_ifs at h with hbl he hlt
      · simp only [Option.some.injEq, Prod.mk.injEq] at h
        omega
      · simp only [Option.some.injEq, Prod.mk.injEq] at h
        have ht : (b + l) / 2 < 2 ^ 32 := by omega
        have h2 : (b + l) / 2 * ((b + l) / 2) % 2 ^ 64 = (b + l) / 2 * ((b + l) / 2) := by
          apply Nat.mod_eq_of_lt
          calc (b + l) / 2 * ((b + l) / 2) < 2 ^ 32 * 2 ^ 32 := Nat.mul_lt_mul_of_lt_of_lt ht ht
            _ = 2 ^ 64 := by norm_num
        rw [h2] at he hlt
        have hpos : 0 < (b + l) / 2 := by
          rcases Nat.eq_zero_or_pos ((b + l) / 2) with h0 | h0
          · rw [h0] at he hlt
            omega
          · exact h0
        omega

/-- C23: for every `num < 2^32` the loop of `sqrt64` ends within 34
iterations, and the value `r` returned satisfies `r * r <= num`; the same holds
for whatever is returned with less fuel. -/
theorem sqrt64_small_no_overestimate (num : Nat) (hn : num < 2 ^ 32) :
    (∀ fuel, ∃ r, sqrt64_fuel (fuel + 34) num = some r ∧ r * r ≤ num) ∧
    (∀ fuel r, sqrt64_fuel fuel num = some r → r * r ≤ num) := by
  have hle : ∀ fuel r, sqrt64_fuel fuel num = some r → r * r ≤ num := fun fuel r h =>
    sqrt64_loop_small_le num hn fuel 0 num 0 (le_refl _) (by omega) (by omega) r h
  refine ⟨fun fuel => ?_, hle⟩
  have hw : num + 1 - 0 < 2 ^ (fuel + 33) := by
    have h1 : (2 : Nat) ^ 33 ≤ 2 ^ (fuel + 33) := Nat.pow_le_pow_right (by norm_num) (by omega)
    omega
  obtain ⟨r, hr⟩ := sqrt64_loop_small_some num hn (fuel + 33) 0 num 0 (le_refl _) (by omega) hw
  exact ⟨r, hr, hle _ r hr⟩

theorem sqrt64_small_no_overestimate_witness :
    10 < 2 ^ 32 ∧
    ((∀ fuel, ∃ r, sqrt64_fuel (fuel + 34) 10 = some r ∧ r * r ≤ 10) ∧
    (∀ fuel r, sqrt64_fuel fuel 10 = some r → r * r ≤ 10)) :=
  ⟨by decide, sqrt64_small_no_overestimate 10 (by decide)⟩

/-- C24: for every `r < 2^16`, `sqrt64(r * r)` returns `r`, as soon as the loop
is given 34 iterations. -/
theorem sqrt64_small_square (r : Nat) (hr : r < 2 ^ 16) :
    ∀ fuel, sqrt64_fuel (fuel + 34) (r * r) = some r := by
  intro fuel
  have hrr : r * r < 2 ^ 32 := by
    calc r * r < 2 ^ 16 * 2 ^ 16 := Nat.mul_lt_mul_of_lt_of_lt hr hr
      _ = 2 ^ 32 := by norm_num
  have hw : r * r + 1 - 0 < 2 ^ (fuel + 33) := by
    have h1 : (2 : Nat) ^ 33 ≤ 2 ^ (fuel + 33) := Nat.pow_le_pow_right (by norm_num) (by omega)
    omega
  exact sqrt64_loop_square r hr (fuel + 33) 0 (r * r) 0 (le_refl _) (Nat.zero_le _)
    (Nat.le_mul_self r) hw

theorem sqrt64_small_square_witness :
    12 < 2 ^ 16 ∧ ∀ fuel, sqrt64_fuel (fuel + 34) (12 * 12) = some 12 :=
  ⟨by decide, sqrt64_small_square 12 (by decide)⟩

/-- C25: for every `num < 2^32` the loop of `sqrt64` is left within 34
iterations; in every iteration that is not an exact hit, from a state reached
by the loop, `limit - base + 1` becomes strictly smaller, and when `limit` is
updated the midpoint is positive, so that `limit = tmp_sqrt - 1` does not
wrap.  The step function used for this is the body of the loop. -/
theorem sqrt64_small_terminates (num : Nat) (hn : num < 2 ^ 32) :
    (∀ fuel, (sqrt64_fuel (fuel + 34) num).isSome = true) ∧
    (∀ n base limit square_root, sqrt64_state num n = some (base, limit, square_root) →
      ∀ base2 limit2 square_root2,
        sqrt64_step num (base, limit, square_root) = some (base2, limit2, square_root2) →
        limit2 + 1 - base2 < limit + 1 - base ∧
        (limit2 ≠ limit → 0 < (base + limit) / 2 ∧ limit2 = (base + limit) / 2 - 1)) ∧
    (∀ fuel base limit square_root,
      sqrt64_loop num (fuel + 1) base limit square_root =
        match sqrt64_step num (base, limit, square_root) with
        | some st => sqrt64_loop num fuel st.1 st.2.1 st.2.2
        | none =>
          some (if base ≤ limit then ((base + limit) % 2 ^ 64) / 2 else square_root)) := by
  refine ⟨fun fuel => ?_, ?_, fun fuel b l s => sqrt64_loop_eq_step num fuel b l s⟩
  · have hw : num + 1 - 0 < 2 ^ (fuel + 33) := by
      have h1 : (2 : Nat) ^ 33 ≤ 2 ^ (fuel + 33) :=
        Nat.pow_le_pow_right (by norm_num) (by omega)
      omega
    obtain ⟨r, hr⟩ := sqrt64_loop_small_some num hn (fuel + 33) 0 num 0 (le_refl _) (by omega) hw
    show (sqrt64_loop num (fuel + 33 + 1) 0 num 0).isSome = true
    rw [hr]
    rfl
  · intro n b l s hst b2 l2 s2 hstep
    obtain ⟨hl, hb⟩ := sqrt64_state_inv num hn n b l s hst
    simp only [sqrt64_step] at hstep
    have h1 : (b + l) % 2 ^ 64 = b + l := Nat.mod_eq_of_lt (by omega)
    rw [h1] at hstep
    have ht : (b + l) / 2 < 2 ^ 32 := by omega
    have h2 : (b + l) / 2 * ((b + l) / 2) % 2 ^ 64 = (b + l) / 2 * ((b + l) / 2) := by
      apply Nat.mod_eq_of_lt
      calc (b + l) / 2 * ((b + l) / 2) < 2 ^ 32 * 2 ^ 32 := Nat.mul_lt_mul_of_lt_of_lt ht ht
        _ = 2 ^ 64 := by norm_num
    rw [h2] at hstep
    split_ifs at hstep with hbl he hlt
    · simp only [Option.some.injEq, Prod.mk.injEq] at hstep
      omega
    · simp only [Option.some.injEq, Prod.mk.injEq] at hstep
      have hpos : 0 < (b + l) / 2 := by
        rcases Nat.eq_zero_or_pos ((b + l) / 2) with h0 | h0
        · rw [h0] at he hlt
          omega
        · exact h0
      omega

theorem sqrt64_small_terminates_witness :
    10 < 2 ^ 32 ∧
    ((∀ fuel, (sqrt64_fuel (fuel + 34) 10).isSome = true) ∧
    (∀ n base limit square_root, sqrt64_state 10 n = some (base, limit, square_root) →
      ∀ base2 limit2 square_root2,
        sqrt64_step 10 (base, limit, square_root) = some (base2, limit2, square_root2) →
        limit2 + 1 - base2 < limit + 1 - base ∧
        (limit2 ≠ limit → 0 < (base + limit) / 2 ∧ limit2 = (base + limit) / 2 - 1)) ∧
    (∀ fuel base limit square_root,
      sqrt64_loop 10 (fuel + 1) base limit square_root =
        match sqrt64_step 10 (base, limit, square_root) with
        | some st => sqrt64_loop 10 fuel st.1 st.2.1 st.2.2
        | none =>
          some (if base ≤ limit then ((base + limit) % 2 ^ 64) / 2 else square_root))) :=
  ⟨by decide, sqrt64_small_terminates 10 (by decide)⟩

/-! ## Further lemmas on `exec_cfg` and the PMIC byte -/

theorem exec_cfg_frame (base : List Nat) (ops : List cfg_op_t) (k : Nat)
    (hk : ∀ op ∈ ops, op.off ≠ k) : (exec_cfg base ops)[k]? = base[k]? := by
  induction ops generalizing base with
  | nil => rfl
  | cons o os ih =>
    rw [exec_cfg, ih _ (fun op hop => hk op (List.mem_cons_of_mem _ hop))]
    have hne : o.off ≠ k := hk o (List.mem_cons_self _ _)
    rw [List.getElem?_set]
    simp [hne]

theorem wake_reset_bits (rd k a b : Nat) (hrd : rd < 256) (i : Nat) :
    ((rd &&& not32 (k ||| a ||| b)) % 256).testBit i =
      (rd.testBit i && !(k ||| a ||| b).testBit i) := by
  have e : (256 : Nat) = 2 ^ 8 := by norm_num
  have e32 : (0xFFFFFFFF : Nat) = 2 ^ 32 - 1 := by norm_num
  unfold not32
  rw [e, e32]
  simp only [Nat.testBit_and, Nat.testBit_mod_two_pow, Nat.testBit_xor,
    Nat.testBit_two_pow_sub_one]
  by_cases h8 : i < 8
  · have h32 : i < 32 := by omega
    cases rd.testBit i <;> cases (k ||| a ||| b).testBit i <;> simp [h8, h32]
  · have : rd.testBit i = false := by
      apply Nat.testBit_lt_two_pow
      calc rd < 2 ^ 8 := hrd
        _ ≤ 2 ^ i := Nat.pow_le_pow_right (by norm_num) (by omega)
    simp [h8, this]

theorem wake_reboot_bits (rd k : Nat) (hrd : rd < 256) (hk : k < 256) (i : Nat) :
    ((rd ||| k) % 256).testBit i = (rd.testBit i || k.testBit i) := by
  have hlt : rd ||| k < 256 := by
    have e : (256 : Nat) = 2 ^ 8 := by norm_num
    rw [e] at hrd hk ⊢
    exact Nat.or_lt_two_pow hrd hk
  rw [Nat.mod_eq_of_lt hlt, Nat.testBit_or]

/-- C26: `exec_cfg` leaves every cell alone that is not the offset of one of
the ops, and with no ops the register block is unchanged. -/
theorem exec_cfg_touches_only_offsets (base : List Nat) (ops : List cfg_op_t) (k : Nat)
    (hk : ∀ op ∈ ops, op.off ≠ k) :
    (exec_cfg base ops)[k]? = base[k]? ∧ (exec_cfg base ops).length = base.length ∧
    exec_cfg base [] = base :=
  ⟨exec_cfg_frame base ops k hk, exec_cfg_length base ops, rfl⟩

theorem exec_cfg_touches_only_offsets_witness :
    (∀ op ∈ [(⟨1, 5⟩ : cfg_op_t), ⟨2, 6⟩, ⟨1, 7⟩], op.off ≠ 3) ∧
    ((exec_cfg [10, 11, 12, 13] [⟨1, 5⟩, ⟨2, 6⟩, ⟨1, 7⟩])[3]? = [10, 11, 12, 13][3]? ∧
    (exec_cfg [10, 11, 12, 13] [⟨1, 5⟩, ⟨2, 6⟩, ⟨1, 7⟩]).length = [10, 11, 12, 13].length ∧
    exec_cfg [10, 11, 12, 13] [] = [10, 11, 12, 13]) :=
  ⟨by decide, exec_cfg_touches_only_offsets [10, 11, 12, 13] [⟨1, 5⟩, ⟨2, 6⟩, ⟨1, 7⟩] 3
    (by decide)⟩

/-- C27: in the `default:` group (`POWER_OFF_RESET`, `POWER_OFF_REBOOT`, any
unlisted state) the byte written to `MAX77620_REG_ONOFFCNFG2` is the byte read,
bit for bit, except that for `POWER_OFF_RESET` the bits of
`MAX77620_ONOFFCNFG2_SFT_RST_WK`, `MAX77620_ONOFFCNFG2_WK_ALARM1` and
`MAX77620_ONOFFCNFG2_WK_ALARM2` are cleared, and otherwise the bits of
`MAX77620_ONOFFCNFG2_SFT_RST_WK` are set (the alarm bits stay as read). -/
theorem onoffcnfg2_keeps_other_bits (c : Consts) (hw : Hw) (state : Int)
    (h1 : state ≠ c.REBOOT_RCM) (h2 : state ≠ c.REBOOT_BYPASS_FUSES)
    (h3 : state ≠ c.POWER_OFF) (hwk : c.MAX77620_ONOFFCNFG2_SFT_RST_WK < 256) :
    ∃ rd wr,
      rd = hw.i2c_recv_byte c.I2C_5 c.MAX77620_I2C_ADDR c.MAX77620_REG_ONOFFCNFG2 % 256 ∧
      (power_set_state c hw state).trace =
        [Effect.sd_end, Effect.hw_reinit_workaround false 0, Effect.max77620_rtc_stop_alarm,
         Effect.i2c_recv_byte c.I2C_5 c.MAX77620_I2C_ADDR c.MAX77620_REG_ONOFFCNFG2 rd,
         Effect.i2c_send_byte c.I2C_5 c.MAX77620_I2C_ADDR c.MAX77620_REG_ONOFFCNFG2 wr,
         Effect.i2c_send_byte c.I2C_5 c.MAX77620_I2C_ADDR c.MAX77620_REG_ONOFFCNFG1
          c.MAX77620_ONOFFCNFG1_SFT_RST] ∧
      ∀ i, wr.testBit i =
        if state = c.POWER_OFF_RESET then
          (rd.testBit i && !(c.MAX77620_ONOFFCNFG2_SFT_RST_WK |||
            c.MAX77620_ONOFFCNFG2_WK_ALARM1 ||| c.MAX77620_ONOFFCNFG2_WK_ALARM2).testBit i)
        else (rd.testBit i || c.MAX77620_ONOFFCNFG2_SFT_RST_WK.testBit i) := by
  refine ⟨hw.i2c_recv_byte c.I2C_5 c.MAX77620_I2C_ADDR c.MAX77620_REG_ONOFFCNFG2 % 256,
    power_set_state_wake c state
      (hw.i2c_recv_byte c.I2C_5 c.MAX77620_I2C_ADDR c.MAX77620_REG_ONOFFCNFG2 % 256),
    rfl, ?_, ?_⟩
  · rw [power_set_state_default_eq c hw state h1 h2 h3]
  · intro i
    have hrd : hw.i2c_recv_byte c.I2C_5 c.MAX77620_I2C_ADDR c.MAX77620_REG_ONOFFCNFG2 % 256
        < 256 := Nat.mod_lt _ (by norm_num)
    unfold power_set_state_wake
    by_cases hs : state = c.POWER_OFF_RESET
    · simp only [hs, if_true]
      exact wake_reset_bits _ _ _ _ hrd i
    · simp only [hs, if_false]
      exact wake_reboot_bits _ _ hrd hwk i

theorem onoffcnfg2_keeps_other_bits_witness :
    ((4 : Int) ≠ sample_consts.REBOOT_RCM ∧ (4 : Int) ≠ sample_consts.REBOOT_BYPASS_FUSES ∧
      (4 : Int) ≠ sample_consts.POWER_OFF ∧
      sample_consts.MAX77620_ONOFFCNFG2_SFT_RST_WK < 256) ∧
    ∃ rd wr,
      rd = sample_hw.i2c_recv_byte sample_consts.I2C_5 sample_consts.MAX77620_I2C_ADDR
        sample_consts.MAX77620_REG_ONOFFCNFG2 % 256 ∧
      (power_set_state sample_consts sample_hw 4).trace =
        [Effect.sd_end, Effect.hw_reinit_workaround false 0, Effect.max77620_rtc_stop_alarm,
         Effect.i2c_recv_byte sample_consts.I2C_5 sample_consts.MAX77620_I2C_ADDR
          sample_consts.MAX77620_REG_ONOFFCNFG2 rd,
         Effect.i2c_send_byte sample_consts.I2C_5 sample_consts.MAX77620_I2C_ADDR
          sample_consts.MAX77620_REG_ONOFFCNFG2 wr,
         Effect.i2c_send_byte sample_consts.I2C_5 sample_consts.MAX77620_I2C_ADDR
          sample_consts.MAX77620_REG_ONOFFCNFG1 sample_consts.MAX77620_ONOFFCNFG1_SFT_RST] ∧
      ∀ i, wr.testBit i =
        if (4 : Int) = sample_consts.POWER_OFF_RESET then
          (rd.testBit i && !(sample_consts.MAX77620_ONOFFCNFG2_SFT_RST_WK |||
            sample_consts.MAX77620_ONOFFCNFG2_WK_ALARM1 |||
            sample_consts.MAX77620_ONOFFCNFG2_WK_ALARM2).testBit i)
        else (rd.testBit i || sample_consts.MAX77620_ONOFFCNFG2_SFT_RST_WK.testBit i) :=
  ⟨⟨by decide, by decide, by decide, by decide⟩,
    onoffcnfg2_keeps_other_bits sample_consts sample_hw 4 (by decide) (by decide) (by decide)
      (by decide)⟩

/-! ## Lemmas on the string functions -/

theorem index_last_eq_getLast (l : List Char) : l[l.length - 1]? = l.getLast? := by
  rw [List.getLast?_eq_getElem?]

theorem strcpy_ns_body (l : List Char) :
    (if decide (l.length ≠ 0) && (l[l.length - 1]? == some ' ') then
        some (l.take (l.length - 1)) else some l) =
      some (if l.getLast? = some ' ' then l.dropLast else l) := by
  rw [index_last_eq_getLast, List.dropLast_eq_take]
  by_cases h : l.getLast? = some ' '
  · have hne : l.length ≠ 0 := by
      intro h0
      rw [List.length_eq_zero.1 h0] at h
      simp at h
    simp [h, hne]
  · simp [h]

/-- C29: with both pointers non-null, `strcpy_ns` leaves in `dst` the string
`src` without one leading space, if it had one, and then without one trailing
space, if what remained had one; nothing else is changed.  With a null `src`
or `dst` it returns `NULL` and writes nothing. -/
theorem strcpy_ns_strips_one_space (dst src : List Char) :
    strcpy_ns (some dst) (some src) = some (ref_strip_one_space src) ∧
    strcpy_ns none (some src) = none ∧ strcpy_ns (some dst) none = none ∧
    strcpy_ns none none = none := by
  refine ⟨?_, rfl, rfl, rfl⟩
  cases src with
  | nil => rfl
  | cons c t =>
    by_cases hc : c = ' '
    · subst hc
      have h := strcpy_ns_body t
      simp only [strcpy_ns, ref_strip_one_space, List.head?_cons, List.tail_cons, if_true,
        List.length_cons, List.getElem?_cons_zero, beq_self_eq_true, Bool.and_true,
        List.drop_succ_cons, List.drop_zero, Nat.add_sub_cancel, ne_eq,
        Nat.add_one_ne_zero, not_false_eq_true, decide_True, Bool.true_and]
      exact h
    · have h := strcpy_ns_body (c :: t)
      have hne : ¬ (some c = some ' ') := fun h2 => hc (Option.some.inj h2)
      simp only [strcpy_ns, ref_strip_one_space, List.head?_cons, hne, if_false,
        List.length_cons, List.getElem?_cons_zero, ne_eq,
        Nat.add_one_ne_zero, not_false_eq_true, decide_True, Bool.true_and,
        beq_iff_eq, Bool.false_eq_true] at h ⊢
      exact h

/-! ## Lemmas on `str_replace` -/

theorem starts_with_iff (hay needle : List Char) :
    starts_with hay needle = true ↔ ∃ t, hay = needle ++ t := by
  induction needle generalizing hay with
  | nil => simp [starts_with]
  | cons n ns ih =>
    cases hay with
    | nil => simp [starts_with]
    | cons h t =>
      simp only [starts_with, Bool.and_eq_true, beq_iff_eq, ih, List.cons_append,
        List.cons.injEq]
      constructor
      · rintro ⟨rfl, u, rfl⟩
        exact ⟨u, rfl, rfl⟩
      · rintro ⟨u, rfl, rfl⟩
        exact ⟨rfl, u, rfl⟩

theorem starts_with_length (hay needle : List Char) (h : starts_with hay needle = true) :
    needle.length ≤ hay.length := by
  obtain ⟨t, rfl⟩ := (starts_with_iff hay needle).1 h
  simp

theorem strstr_bound (rep : List Char) (s : List Char) (i : Nat) (h : strstr s rep = some i) :
    i + rep.length ≤ s.length := by
  induction s generalizing i with
  | nil =>
    simp only [strstr] at h
    split_ifs at h with hs
    have := starts_with_length [] rep hs
    simp only [Option.some.injEq] at h
    omega
  | cons c t ih =>
    simp only [strstr] at h
    split_ifs at h with hs
    · have := starts_with_length (c :: t) rep hs
      simp only [Option.some.injEq] at h
      omega
    · cases ht : strstr t rep with
      | none => rw [ht] at h; simp at h
      | some k =>
        rw [ht] at h
        simp only [Option.map_some', Option.some.injEq] at h
        have := ih k ht
        simp only [List.length_cons]
        omega

theorem ref_replace_scan_skip (rep with_s : List Char) (k : Nat) (s : List Char) :
    ref_replace_scan rep with_s k s = ref_replace_scan rep with_s 0 (s.drop k) := by
  induction k generalizing s with
  | zero => rfl
  | succ k ih =>
    cases s with
    | nil => rfl
    | cons c t => simp only [ref_replace_scan, List.drop_succ_cons, ih]

theorem ref_count_scan_skip (rep : List Char) (k : Nat) (s : List Char) :
    ref_count_scan rep k s = ref_count_scan rep 0 (s.drop k) := by
  induction k generalizing s with
  | zero => rfl
  | succ k ih =>
    cases s with
    | nil => rfl
    | cons c t => simp only [ref_count_scan, List.drop_succ_cons, ih]

theorem scan_of_strstr (rep with_s : List Char) (hrep : rep ≠ []) (s : List Char) :
    (strstr s rep = none →
      ref_replace_scan rep with_s 0 s = s ∧ ref_count_scan rep 0 s = 0) ∧
    (∀ i, strstr s rep = some i →
      ref_replace_scan rep with_s 0 s =
        s.take i ++ with_s ++ ref_replace_scan rep with_s 0 (s.drop (i + rep.length)) ∧
      ref_count_scan rep 0 s = 1 + ref_count_scan rep 0 (s.drop (i + rep.length))) := by
  have hlen : 1 ≤ rep.length := by
    cases rep with
    | nil => exact absurd rfl hrep
    | cons _ _ => simp
  induction s with
  | nil =>
    refine ⟨fun _ => ⟨rfl, rfl⟩, fun i h => ?_⟩
    have := strstr_bound rep [] i h
    simp only [List.length_nil] at this
    omega
  | cons c t ih =>
    by_cases hs : starts_with (c :: t) rep = true
    · refine ⟨fun h => ?_, fun i h => ?_⟩
      · simp [strstr, hs] at h
      · simp only [strstr, hs, if_true, Option.some.injEq] at h
        subst h
        have hd : (c :: t).drop (0 + rep.length) = t.drop (rep.length - 1) := by
          obtain ⟨m, hm⟩ : ∃ m, rep.length = m + 1 := ⟨rep.length - 1, by omega⟩
          rw [hm]
          simp
        rw [hd]
        simp only [ref_replace_scan, ref_count_scan, hs, if_true, List.take_zero,
          List.nil_append]
        rw [ref_replace_scan_skip, ref_count_scan_skip]
        exact ⟨rfl, rfl⟩
    · have hs2 : starts_with (c :: t) rep = false := by simpa using hs
      refine ⟨fun h => ?_, fun i h => ?_⟩
      · simp only [strstr, hs2, Bool.false_eq_true, if_false, Option.map_eq_none'] at h
        obtain ⟨h1, h2⟩ := ih.1 h
        simp only [ref_replace_scan, ref_count_scan, hs2, Bool.false_eq_true, if_false, h1, h2]
        refine ⟨?_, ?_⟩ <;> trivial
      · simp only [strstr, hs2, Bool.false_eq_true, if_false] at h
        cases ht : strstr t rep with
        | none => rw [ht] at h; simp at h
        | some k =>
          rw [ht] at h
          simp only [Option.map_some', Option.some.injEq] at h
          subst h
          obtain ⟨h1, h2⟩ := ih.2 k ht
          have hd : (c :: t).drop (k + 1 + rep.length) = t.drop (k + rep.length) := by
            have : k + 1 + rep.length = (k + rep.length) + 1 := by omega
            rw [this, List.drop_succ_cons]
          rw [hd]
          simp only [ref_replace_scan, ref_count_scan, hs2, Bool.false_eq_true, if_false, h1,
            h2, List.take_succ_cons, List.cons_append]
          refine ⟨?_, ?_⟩ <;> trivial

theorem str_replace_count_eq (rep : List Char) (hrep : rep ≠ []) (fuel : Nat) :
    ∀ ins count, ins.length < fuel →
      str_replace_count rep fuel ins count = some (count + ref_count_scan rep 0 ins) := by
  have hlen : 1 ≤ rep.length := by
    cases rep with
    | nil => exact absurd rfl hrep
    | cons _ _ => simp
  induction fuel with
  | zero => intro ins count h; omega
  | succ n ih =>
    intro ins count h
    rw [str_replace_count]
    cases hst : strstr ins rep with
    | none =>
      have := ((scan_of_strstr rep [] hrep ins).1 hst).2
      simp only [this, Nat.add_zero]
    | some i =>
      have hb := strstr_bound rep ins i hst
      have hc := ((scan_of_strstr rep [] hrep ins).2 i hst).2
      simp only []
      rw [ih _ _ (by rw [List.length_drop]; omega), hc]
      congr 1
      omega

theorem str_replace_build_eq (rep with_s : List Char) (hrep : rep ≠ []) (count : Nat) :
    ∀ orig out, ref_count_scan rep 0 orig = count →
      str_replace_build rep with_s count orig out =
        Ret.str (out ++ ref_replace_scan rep with_s 0 orig) := by
  induction count with
  | zero =>
    intro orig out h
    rw [str_replace_build]
    cases hst : strstr orig rep with
    | none => rw [((scan_of_strstr rep with_s hrep orig).1 hst).1]
    | some i =>
      have hc := ((scan_of_strstr rep with_s hrep orig).2 i hst).2
      omega
  | succ n ih =>
    intro orig out h
    rw [str_replace_build]
    cases hst : strstr orig rep with
    | none =>
      have hc := ((scan_of_strstr rep with_s hrep orig).1 hst).2
      omega
    | some i =>
      obtain ⟨hs, hc⟩ := (scan_of_strstr rep with_s hrep orig).2 i hst
      simp only []
      rw [ih _ _ (by omega), hs]
      simp only [List.append_assoc]

theorem ref_replace_scan_length (rep with_s : List Char) (hrep : rep ≠ []) (n : Nat) :
    ∀ s : List Char, s.length ≤ n →
      ((ref_replace_scan rep with_s 0 s).length : Int) =
        s.length + ((with_s.length : Int) - rep.length) * ref_count_scan rep 0 s := by
  induction n with
  | zero =>
    intro s h
    have : s = [] := List.length_eq_zero.1 (by omega)
    subst this
    simp [ref_replace_scan, ref_count_scan]
  | succ n ih =>
    intro s h
    have hlen : 1 ≤ rep.length := by
      cases rep with
      | nil => exact absurd rfl hrep
      | cons _ _ => simp
    cases hst : strstr s rep with
    | none =>
      obtain ⟨h1, h2⟩ := (scan_of_strstr rep with_s hrep s).1 hst
      rw [h1, h2]
      simp
    | some i =>
      obtain ⟨h1, h2⟩ := (scan_of_strstr rep with_s hrep s).2 i hst
      have hb := strstr_bound rep s i hst
      have hd : (s.drop (i + rep.length)).length ≤ n := by
        rw [List.length_drop]
        omega
      have hi := ih _ hd
      rw [h1, h2]
      simp only [List.length_append, List.length_take, Nat.cast_add, hi, List.length_drop]
      have hmin : min i s.length = i := by omega
      rw [hmin]
      have hsub : ((s.length - (i + rep.length) : Nat) : Int) =
          (s.length : Int) - (i + rep.length) := by
        omega
      rw [hsub]
      push_cast
      ring

theorem strstr_occurs (rep : List Char) (s : List Char) (i : Nat) (h : strstr s rep = some i) :
    ∃ post, s = s.take i ++ rep ++ post := by
  induction s generalizing i with
  | nil =>
    simp only [strstr] at h
    split_ifs at h with hs
    simp only [Option.some.injEq] at h
    subst h
    obtain ⟨t, ht⟩ := (starts_with_iff [] rep).1 hs
    exact ⟨t, by simpa using ht⟩
  | cons c t ih =>
    simp only [strstr] at h
    split_ifs at h with hs
    · simp only [Option.some.injEq] at h
      subst h
      obtain ⟨u, hu⟩ := (starts_with_iff (c :: t) rep).1 hs
      exact ⟨u, by simpa using hu⟩
    · cases ht : strstr t rep with
      | none => rw [ht] at h; simp at h
      | some k =>
        rw [ht] at h
        simp only [Option.map_some', Option.some.injEq] at h
        subst h
        obtain ⟨post, hp⟩ := ih k ht
        refine ⟨post, ?_⟩
        simp only [List.take_succ_cons, List.cons_append, List.cons.injEq, true_and]
        exact hp

theorem strstr_none_of_absent (rep : List Char) (s : List Char)
    (habs : ¬ ∃ pre post, s = pre ++ rep ++ post) : strstr s rep = none := by
  cases h : strstr s rep with
  | none => rfl
  | some i =>
    obtain ⟨post, hp⟩ := strstr_occurs rep s i h
    exact absurd ⟨s.take i, post, hp⟩ habs

/-- C28, the claim as stated fails: when `malloc` returns `NULL`, `str_replace`
returns `NULL` although `orig` is non-null and `rep` non-empty; here for
`orig = "a.bin"`, `rep = ".bin"`, `with = ".bmp"`, where the replaced string
would be `"a.bmp"`. -/
theorem str_replace_null_when_malloc_fails :
    str_replace (fun _ => false) (some ['a', '.', 'b', 'i', 'n']) (some ['.', 'b', 'i', 'n'])
      (some ['.', 'b', 'm', 'p']) = Ret.null ∧
    str_replace (fun _ => true) (some ['a', '.', 'b', 'i', 'n']) (some ['.', 'b', 'i', 'n'])
      (some ['.', 'b', 'm', 'p']) = Ret.str ['a', '.', 'b', 'm', 'p'] ∧
    payload_logo_path (fun _ => false) "hekate.bin".toList = none ∧
    payload_logo_path (fun _ => true) "hekate.bin".toList =
      some "AtomNX/logos/hekate.bmp".toList := by
  decide

/-- C28, amended: for every string `orig`, non-empty string `rep` and string
`with` (a null `with` counting as the empty string), `str_replace` asks
`malloc` for `len(orig) + (len(with) - len(rep)) * count + 1` bytes, `count`
being the number of occurrences of `rep` found from left to right without
overlap; if `malloc` succeeds it returns `orig` with each of these occurrences
replaced by `with`, a string of length
`len(orig) + (len(with) - len(rep)) * count`, equal to `orig` when `rep` does
not occur; if `malloc` fails it returns `NULL`.  It returns `NULL` when `orig`
or `rep` is null or `rep` is empty. -/
theorem str_replace_replaces_all (heap : Int → Bool) (orig rep : List Char)
    (with_s : Option (List Char)) (hrep : rep ≠ []) :
    str_replace heap (some orig) (some rep) with_s =
      (if heap (orig.length + (((with_s.getD []).length : Int) - rep.length) *
          ref_count_scan rep 0 orig + 1) then
        Ret.str (ref_replace_scan rep (with_s.getD []) 0 orig)
      else Ret.null) ∧
    ((ref_replace_scan rep (with_s.getD []) 0 orig).length : Int) =
      orig.length + (((with_s.getD []).length : Int) - rep.length) *
        ref_count_scan rep 0 orig ∧
    ((¬ ∃ pre post, orig = pre ++ rep ++ post) →
      ref_replace_scan rep (with_s.getD []) 0 orig = orig) ∧
    str_replace heap none (some rep) with_s = Ret.null ∧
    str_replace heap (some orig) none with_s = Ret.null ∧
    str_replace heap (some orig) (some []) with_s = Ret.null := by
  refine ⟨?_, ref_replace_scan_length rep _ hrep orig.length orig (le_refl _), ?_, rfl, rfl, rfl⟩
  · have hlen : ((rep.length : Nat) : Int) ≠ 0 := by
      intro h
      exact hrep (List.length_eq_zero.1 (by exact_mod_cast h))
    have hcount := str_replace_count_eq rep hrep (orig.length + 1) orig 0 (Nat.lt_succ_self _)
    simp only [Nat.zero_add] at hcount
    simp only [str_replace, hlen, if_false, hcount]
    by_cases hh : heap (orig.length + (((with_s.getD []).length : Int) - rep.length) *
        ref_count_scan rep 0 orig + 1) = true
    · simp only [hh, if_true]
      rw [str_replace_build_eq rep _ hrep _ orig [] rfl]
      rfl
    · simp only [hh, if_false]
      simp
  · intro habs
    exact ((scan_of_strstr rep _ hrep orig).1 (strstr_none_of_absent rep orig habs)).1

theorem str_replace_replaces_all_witness :
    ['.', 'b', 'i', 'n'] ≠ [] ∧
    (str_replace (fun _ => true) (some ['a', '.', 'b', 'i', 'n']) (some ['.', 'b', 'i', 'n'])
        (some ['.', 'b', 'm', 'p']) =
      (if (fun _ => true) ((['a', '.', 'b', 'i', 'n'].length : Int) +
          ((((some ['.', 'b', 'm', 'p']).getD []).length : Int) - ['.', 'b', 'i', 'n'].length) *
          ref_count_scan ['.', 'b', 'i', 'n'] 0 ['a', '.', 'b', 'i', 'n'] + 1) then
        Ret.str (ref_replace_scan ['.', 'b', 'i', 'n'] ((some ['.', 'b', 'm', 'p']).getD []) 0
          ['a', '.', 'b', 'i', 'n'])
      else Ret.null) ∧
    ((ref_replace_scan ['.', 'b', 'i', 'n'] ((some ['.', 'b', 'm', 'p']).getD []) 0
        ['a', '.', 'b', 'i', 'n']).length : Int) =
      ['a', '.', 'b', 'i', 'n'].length +
        ((((some ['.', 'b', 'm', 'p']).getD []).length : Int) - ['.', 'b', 'i', 'n'].length) *
        ref_count_scan ['.', 'b', 'i', 'n'] 0 ['a', '.', 'b', 'i', 'n'] ∧
    ((¬ ∃ pre post, ['a', '.', 'b', 'i', 'n'] = pre ++ ['.', 'b', 'i', 'n'] ++ post) →
      ref_replace_scan ['.', 'b', 'i', 'n'] ((some ['.', 'b', 'm', 'p']).getD []) 0
        ['a', '.', 'b', 'i', 'n'] = ['a', '.', 'b', 'i', 'n']) ∧
    str_replace (fun _ => true) none (some ['.', 'b', 'i', 'n']) (some ['.', 'b', 'm', 'p']) =
      Ret.null ∧
    str_replace (fun _ => true) (some ['a', '.', 'b', 'i', 'n']) none
      (some ['.', 'b', 'm', 'p']) = Ret.null ∧
    str_replace (fun _ => true) (some ['a', '.', 'b', 'i', 'n']) (some [])
      (some ['.', 'b', 'm', 'p']) = Ret.null) :=
  ⟨by decide, str_replace_replaces_all (fun _ => true) ['a', '.', 'b', 'i', 'n']
    ['.', 'b', 'i', 'n'] (some ['.', 'b', 'm', 'p']) (by decide)⟩

/-- C30 (the code departs from the claim): in 24-hour mode, with the RTC at
23:30 on 31 March 2024, `ctrl_rtctime` shows hour `0` of day 31, and
`ctrl_rtctimesave`, given back these numbers, writes hour `22`, not `23`; with
the RTC at 00:30 on 27 October 2024 it shows hour `1` and the save writes
`23`, not `0`.  At 12:30 on 15 July 2024 the hour shown is `14` and the save
writes `12` back. -/
theorem rtc_hour_round_trip_fails :
    (ctrl_rtctime sample_rtc_consts ⟨0x2, 0, 30, 23, 1, 31, 24, 3⟩ =
        ⟨1, 0, 30, 0, 31, 3, 2024⟩ ∧
      (ctrl_rtctimesave 0 30 31 3 2024).HOUR_REG = 22) ∧
    (ctrl_rtctime sample_rtc_consts ⟨0x2, 0, 30, 0, 1, 27, 24, 10⟩ =
        ⟨1, 0, 30, 1, 27, 10, 2024⟩ ∧
      (ctrl_rtctimesave 1 30 27 10 2024).HOUR_REG = 23) ∧
    (ctrl_rtctime sample_rtc_consts ⟨0x2, 0, 30, 12, 1, 15, 24, 7⟩ =
        ⟨1, 0, 30, 14, 15, 7, 2024⟩ ∧
      (ctrl_rtctimesave 14 30 15 7 2024).HOUR_REG = 12) := by
  decide

end AtomNX
